import Mathlib

set_option maxHeartbeats 1000000

/-!
Verification of the dbt-cli-mcp command execution and output-normalization
core. Python values flowing through the normalizer are modelled by the
Json type below; Python functions from src/src/command.py,
src/src/formatters.py, src/src/tools.py and src/src/cli.py are translated
into executable Lean definitions, and the behavioural claims of the design
specification are settled against them.

Modelling conventions, stated once here:
  - Python exceptions are modelled by an Option result, with none for a
    raised-and-unhandled exception.
  - Python str values are modelled by Lean String; lone surrogate code
    units (representable in a Python str but not as a Lean Char) degrade
    to the NUL character in the string scanner, and non-ASCII digit and
    whitespace classes of Python regular expressions are modelled by their
    standard subsets listed in the corresponding definitions.
  - Python float objects are modelled syntactically as a decimal mantissa
    and exponent; no claim inspects floating-point values.
-/

/-- A JSON-like Python value: the payloads produced by json.loads and
passed between the process runner, normalizer and formatters. The extra
constructors nan and inf model the non-standard NaN and Infinity literals
that the Python json module accepts by default. -/
inductive Json where
  | null : Json
  | bool (b : Bool) : Json
  | num (n : Int) : Json
  | numF (mantissa : Int) (exponent : Int) : Json
  | nan : Json
  | inf (negative : Bool) : Json
  | str (s : String) : Json
  | arr (elements : List Json) : Json
  | obj (fields : List (String × Json)) : Json

mutual

/-- Boolean equality on Json values. -/
def Json.beq : Json → Json → Bool
  | .null, .null => true
  | .bool a, .bool b => a == b
  | .num a, .num b => a == b
  | .numF m1 e1, .numF m2 e2 => m1 == m2 && e1 == e2
  | .nan, .nan => true
  | .inf a, .inf b => a == b
  | .str a, .str b => a == b
  | .arr xs, .arr ys => Json.beqList xs ys
  | .obj fs, .obj gs => Json.beqFields fs gs
  | _, _ => false

/-- Boolean equality on lists of Json values. -/
def Json.beqList : List Json → List Json → Bool
  | [], [] => true
  | x :: xs, y :: ys => Json.beq x y && Json.beqList xs ys
  | _, _ => false

/-- Boolean equality on association lists of Json values. -/
def Json.beqFields : List (String × Json) → List (String × Json) → Bool
  | [], [] => true
  | (k1, v1) :: xs, (k2, v2) :: ys => k1 == k2 && Json.beq v1 v2 && Json.beqFields xs ys
  | _, _ => false

end

mutual

theorem Json.beq_iff : ∀ (a b : Json), Json.beq a b = true ↔ a = b
  | .null, b => by cases b <;> simp [Json.beq]
  | .bool x, b => by cases b <;> simp [Json.beq]
  | .num x, b => by cases b <;> simp [Json.beq]
  | .numF m e, b => by cases b <;> simp [Json.beq]
  | .nan, b => by cases b <;> simp [Json.beq]
  | .inf x, b => by cases b <;> simp [Json.beq]
  | .str x, b => by cases b <;> simp [Json.beq]
  | .arr xs, b => by
      cases b <;> simp [Json.beq]
      exact Json.beqList_iff xs _
  | .obj fs, b => by
      cases b <;> simp [Json.beq]
      exact Json.beqFields_iff fs _

theorem Json.beqList_iff : ∀ (xs ys : List Json), Json.beqList xs ys = true ↔ xs = ys
  | [], ys => by cases ys <;> simp [Json.beqList]
  | x :: xs, ys => by
      cases ys with
      | nil => simp [Json.beqList]
      | cons y ys =>
          simp [Json.beqList, Bool.and_eq_true, Json.beq_iff x y, Json.beqList_iff xs ys]

theorem Json.beqFields_iff : ∀ (xs ys : List (String × Json)),
    Json.beqFields xs ys = true ↔ xs = ys
  | [], ys => by cases ys <;> simp [Json.beqFields]
  | (k1, v1) :: xs, ys => by
      cases ys with
      | nil => simp [Json.beqFields]
      | cons y ys =>
          obtain ⟨k2, v2⟩ := y
          simp [Json.beqFields, Bool.and_eq_true, Json.beq_iff v1 v2,
            Json.beqFields_iff xs ys, and_assoc]

end

instance : DecidableEq Json := fun a b => decidable_of_iff _ (Json.beq_iff a b)

/-- First binding of a key in an association list: Python dict lookup
(association lists built by dictInsert never hold a key twice). -/
def lookupFirst (k : String) : List (String × Json) → Option Json
  | [] => none
  | (k', v) :: rest => if k' = k then some v else lookupFirst k rest

/-- Python dict assignment d[k] = v: an existing binding keeps its
position and gets the new value, a new key is appended at the end. -/
def dictInsert (k : String) (v : Json) : List (String × Json) → List (String × Json)
  | [] => [(k, v)]
  | (k', v') :: rest => if k' = k then (k', v) :: rest else (k', v') :: dictInsert k v rest

/-- Python membership test k in d for a dict. -/
def hasKey (fields : List (String × Json)) (k : String) : Bool :=
  (lookupFirst k fields).isSome

/-- Field lookup on a value known to be an object; none otherwise. -/
def objGet (v : Json) (k : String) : Option Json :=
  match v with
  | Json.obj fields => lookupFirst k fields
  | _ => none

/-! String and character utilities modelling the Python primitives used
by the source: substring test (in), startswith, strip, split and
splitlines. -/

/-- Python substring test: needle in hay, over character lists. -/
def containsSub (hay needle : List Char) : Bool :=
  match hay with
  | [] => needle.isEmpty
  | _ :: rest => needle.isPrefixOf hay || containsSub rest needle

/-- Python substring test on strings. -/
def containsStr (hay needle : String) : Bool :=
  containsSub hay.data needle.data

/-- Python str.startswith. -/
def strStartsWith (s pre : String) : Bool :=
  pre.data.isPrefixOf s.data

/-- The characters stripped by Python str.strip() and matched by the
regex class backslash-s on str patterns (the isspace characters of the
ASCII and Latin-1 range together with the Unicode space separators). -/
def pyIsSpace (c : Char) : Bool :=
  c = ' ' || c = '\t' || c = '\n' || c = '\r' || c = '\x0b' || c = '\x0c' ||
  (0x1c ≤ c.toNat && c.toNat ≤ 0x1f) || c.toNat = 0x85 || c.toNat = 0xa0 ||
  c.toNat = 0x1680 || (0x2000 ≤ c.toNat && c.toNat ≤ 0x200a) ||
  c.toNat = 0x2028 || c.toNat = 0x2029 || c.toNat = 0x202f || c.toNat = 0x205f ||
  c.toNat = 0x3000

/-- Python str.strip() on a character list. -/
def pyStripList (l : List Char) : List Char :=
  ((l.dropWhile pyIsSpace).reverse.dropWhile pyIsSpace).reverse

/-- Python str.strip(). -/
def pyStrip (s : String) : String :=
  String.mk (pyStripList s.data)

/-- Python str.split(sep) for a one-character separator: keeps empty
pieces, and the empty string splits to one empty piece. -/
def splitOnChar (sep : Char) : List Char → List (List Char)
  | [] => [[]]
  | c :: rest =>
    let r := splitOnChar sep rest
    if c = sep then [] :: r
    else
      match r with
      | [] => [[c]]
      | h :: t => (c :: h) :: t

/-- The line-boundary characters of Python str.splitlines(). -/
def isPyLineBoundary (c : Char) : Bool :=
  c = '\n' || c = '\r' || c = '\x0b' || c = '\x0c' ||
  (0x1c ≤ c.toNat && c.toNat ≤ 0x1e) || c.toNat = 0x85 ||
  c.toNat = 0x2028 || c.toNat = 0x2029

/-- Python str.splitlines(): a carriage return followed by a newline
counts as a single boundary, and a terminal boundary produces no final
empty line. -/
def pySplitlinesAux (acc : List Char) : List Char → List (List Char)
  | [] => if acc.isEmpty then [] else [acc.reverse]
  | '\r' :: '\n' :: rest => acc.reverse :: pySplitlinesAux [] rest
  | c :: rest =>
    if isPyLineBoundary c then acc.reverse :: pySplitlinesAux [] rest
    else pySplitlinesAux (c :: acc) rest

/-- Python str.splitlines() on strings. -/
def pySplitlines (s : String) : List String :=
  (pySplitlinesAux [] s.data).map String.mk

/-- ASCII decimal digit (models the digit class of the Python regexes
used by the source; non-ASCII Unicode digits are not modelled). -/
def isAsciiDigit (c : Char) : Bool :=
  '0' ≤ c && c ≤ '9'

/-! The Python json module. jsonLoads models json.loads with its default
arguments: strict string scanning (raw control characters in string
literals are rejected), NaN and Infinity literals accepted, objects
decoded into dicts where a repeated key keeps its first position and
takes its last value. The recursion is fuelled; the fuel supplied by
jsonLoads exceeds the input length, which every recursive call strictly
consumes, so it never runs out. -/

/-- The whitespace skipped between JSON tokens (json.decoder whitespace). -/
def jsonWsChar (c : Char) : Bool :=
  c = ' ' || c = '\t' || c = '\n' || c = '\r'

/-- Skip inter-token JSON whitespace. -/
def skipJsonWs : List Char → List Char
  | [] => []
  | c :: cs => if jsonWsChar c then skipJsonWs cs else c :: cs

/-- Value of one hexadecimal digit. -/
def hexDigitVal (c : Char) : Option Nat :=
  if '0' ≤ c && c ≤ '9' then some (c.toNat - 48)
  else if 'a' ≤ c && c ≤ 'f' then some (c.toNat - 87)
  else if 'A' ≤ c && c ≤ 'F' then some (c.toNat - 55)
  else none

/-- Four hexadecimal digits, as in a backslash-u escape. -/
def hex4 : List Char → Option (Nat × List Char)
  | a :: b :: c :: d :: rest =>
    match hexDigitVal a, hexDigitVal b, hexDigitVal c, hexDigitVal d with
    | some va, some vb, some vc, some vd =>
      some (va * 4096 + vb * 256 + vc * 16 + vd, rest)
    | _, _, _, _ => none
  | _ => none

/-- The single-character backslash escapes of JSON strings. -/
def backslashEscape (c : Char) : Option Char :=
  if c = '"' then some '"'
  else if c = '\\' then some '\\'
  else if c = '/' then some '/'
  else if c = 'b' then some '\x08'
  else if c = 'f' then some '\x0c'
  else if c = 'n' then some '\n'
  else if c = 'r' then some '\r'
  else if c = 't' then some '\t'
  else none

/-- A code point decoded from backslash-u escapes; a lone surrogate (a
valid Python str element with no Lean Char counterpart) degrades to NUL. -/
def mkCharScalar (n : Nat) : Char :=
  Char.ofNat n

/-- Scan the body of a JSON string after the opening quote (py_scanstring
with strict=True): returns the decoded characters and the rest of the
input after the closing quote. Raw control characters below 0x20 are
rejected; a high surrogate escape followed by a low surrogate escape
combines into one code point. -/
def scanStringBody : Nat → List Char → Option (List Char × List Char)
  | 0, _ => none
  | fuel + 1, cs =>
    match cs with
    | [] => none
    | c :: rest =>
      if c = '"' then some ([], rest)
      else if c = '\\' then
        match rest with
        | [] => none
        | e :: rest2 =>
          if e = 'u' then
            match hex4 rest2 with
            | none => none
            | some (n1, rest3) =>
              if 0xd800 ≤ n1 && n1 ≤ 0xdbff then
                match rest3 with
                | c2 :: c3 :: rest4 =>
                  if c2 = '\\' && c3 = 'u' then
                    match hex4 rest4 with
                    | none => none
                    | some (n2, rest5) =>
                      if 0xdc00 ≤ n2 && n2 ≤ 0xdfff then
                        (scanStringBody fuel rest5).map
                          (fun p => (mkCharScalar (0x10000 + (n1 - 0xd800) * 1024 + (n2 - 0xdc00)) :: p.1, p.2))
                      else
                        (scanStringBody fuel rest3).map (fun p => (mkCharScalar n1 :: p.1, p.2))
                  else
                    (scanStringBody fuel rest3).map (fun p => (mkCharScalar n1 :: p.1, p.2))
                | _ =>
                  (scanStringBody fuel rest3).map (fun p => (mkCharScalar n1 :: p.1, p.2))
              else
                (scanStringBody fuel rest3).map (fun p => (mkCharScalar n1 :: p.1, p.2))
          else
            match backslashEscape e with
            | some ch => (scanStringBody fuel rest2).map (fun p => (ch :: p.1, p.2))
            | none => none
      else if c.toNat < 0x20 then none
      else (scanStringBody fuel rest).map (fun p => (c :: p.1, p.2))

/-- Maximal ASCII digit run. -/
def takeDigits : List Char → List Char × List Char
  | [] => ([], [])
  | c :: rest =>
    if isAsciiDigit c then
      let p := takeDigits rest
      (c :: p.1, p.2)
    else ([], c :: rest)

/-- Digit characters to a natural number. -/
def digitsToNat (ds : List Char) : Nat :=
  ds.foldl (fun acc c => acc * 10 + (c.toNat - 48)) 0

/-- The optional fraction group of the json NUMBER_RE regex: a dot with
at least one following digit, otherwise nothing consumed. -/
def scanFrac (cs : List Char) : Option (List Char) × List Char :=
  match cs with
  | [] => (none, [])
  | c :: r =>
    if c = '.' then
      match takeDigits r with
      | ([], _) => (none, c :: r)
      | (ds, r2) => (some ds, r2)
    else (none, c :: r)

/-- The digits of an exponent group after its sign: at least one digit
consumes the group, otherwise nothing of the original input is
consumed. -/
def expDigits (orig : List Char) (eneg : Bool) (r : List Char) :
    Option (Bool × List Char) × List Char :=
  match takeDigits r with
  | ([], _) => (none, orig)
  | (ds, r2) => (some (eneg, ds), r2)

/-- The optional exponent group of the json NUMBER_RE regex: an e or E,
an optional sign, and at least one digit, otherwise nothing consumed. -/
def scanExp (cs : List Char) : Option (Bool × List Char) × List Char :=
  match cs with
  | [] => (none, [])
  | c :: r =>
    if c = 'e' || c = 'E' then
      match r with
      | [] => (none, c :: r)
      | s :: r2 =>
        if s = '+' then expDigits (c :: r) false r2
        else if s = '-' then expDigits (c :: r) true r2
        else expDigits (c :: r) false r
    else (none, c :: r)

/-- Finish scanning a number after its integer digits: the optional
fraction and exponent groups, each matched only when at least one digit
follows. An integer-only match yields a Python int, otherwise a float,
modelled as mantissa times ten to the exponent. -/
def finishNumber (neg : Bool) (intDs : List Char) (cs : List Char) : Json × List Char :=
  let fracP := scanFrac cs
  let expP := scanExp fracP.2
  match fracP.1, expP.1 with
  | none, none =>
    let m : Int := Int.ofNat (digitsToNat intDs)
    (Json.num (if neg then -m else m), fracP.2)
  | fracDs, expSpec =>
    let fds := fracDs.getD []
    let m : Int := Int.ofNat (digitsToNat (intDs ++ fds))
    let e0 : Int := - (Int.ofNat fds.length)
    let e : Int :=
      match expSpec with
      | none => e0
      | some (eneg, eds) =>
        let ev : Int := Int.ofNat (digitsToNat eds)
        e0 + (if eneg then -ev else ev)
    (Json.numF (if neg then -m else m) e, expP.2)

/-- The integer-digits part of a number after the optional minus: a
single zero or a nonzero-led digit run, then the fraction and exponent
groups. -/
def scanNumBody (neg : Bool) (l : List Char) : Option (Json × List Char) :=
  match l with
  | [] => none
  | c :: rest =>
    if c = '0' then some (finishNumber neg [c] rest)
    else if isAsciiDigit c then
      let q := takeDigits rest
      some (finishNumber neg (c :: q.1) q.2)
    else none

/-- Scan a JSON number (the NUMBER_RE regex of the json scanner): an
optional minus, then a single zero or a nonzero-led digit run, then the
optional fraction and exponent. -/
def scanNumber (cs : List Char) : Option (Json × List Char) :=
  match cs with
  | [] => none
  | c :: r => if c = '-' then scanNumBody true r else scanNumBody false (c :: r)

/-- Consume an expected literal character sequence. -/
def stripPre (pre : List Char) (cs : List Char) : Option (List Char) :=
  match pre, cs with
  | [], _ => some cs
  | p :: ps, c :: rest => if c = p then stripPre ps rest else none
  | _ :: _, [] => none

mutual

/-- One JSON value starting at the head of the input (the scan_once
dispatcher of the json scanner): strings, objects, arrays, the null,
true, false literals, numbers, and the NaN and Infinity constants. The
input position is expected to be at a non-whitespace character. -/
def parseValue : Nat → List Char → Option (Json × List Char)
  | 0, _ => none
  | fuel + 1, cs =>
    match cs with
    | [] => none
    | c :: rest =>
      if c = '"' then
        (scanStringBody (fuel + 1) rest).map (fun p => (Json.str (String.mk p.1), p.2))
      else if c = '\x7b' then
        match skipJsonWs rest with
        | [] => none
        | c2 :: r2 =>
          if c2 = '\x7d' then some (Json.obj [], r2)
          else (parseMembers fuel [] (c2 :: r2)).map (fun p => (Json.obj p.1, p.2))
      else if c = '[' then
        match skipJsonWs rest with
        | [] => none
        | c2 :: r2 =>
          if c2 = ']' then some (Json.arr [], r2)
          else (parseElems fuel (c2 :: r2)).map (fun p => (Json.arr p.1, p.2))
      else if c = 'n' then (stripPre ['u', 'l', 'l'] rest).map (fun r => (Json.null, r))
      else if c = 't' then (stripPre ['r', 'u', 'e'] rest).map (fun r => (Json.bool true, r))
      else if c = 'f' then (stripPre ['a', 'l', 's', 'e'] rest).map (fun r => (Json.bool false, r))
      else
        match scanNumber (c :: rest) with
        | some p => some p
        | none =>
          if c = 'N' then (stripPre ['a', 'N'] rest).map (fun r => (Json.nan, r))
          else if c = 'I' then
            (stripPre ['n', 'f', 'i', 'n', 'i', 't', 'y'] rest).map (fun r => (Json.inf false, r))
          else if c = '-' then
            (stripPre ['I', 'n', 'f', 'i', 'n', 'i', 't', 'y'] rest).map (fun r => (Json.inf true, r))
          else none

/-- The members of a JSON object after its opening brace and leading
whitespace (JSONObject): a quoted key, whitespace, a colon, whitespace,
a value, then either a closing brace or a comma and further members.
Keys accumulate by dict assignment. -/
def parseMembers : Nat → List (String × Json) → List Char → Option (List (String × Json) × List Char)
  | 0, _, _ => none
  | fuel + 1, acc, cs =>
    match cs with
    | [] => none
    | c :: rest =>
      if c = '"' then
        match scanStringBody (fuel + 1) rest with
        | none => none
        | some (keyChars, r1) =>
          match skipJsonWs r1 with
          | [] => none
          | c2 :: r2 =>
            if c2 = ':' then
              match parseValue fuel (skipJsonWs r2) with
              | none => none
              | some (v, r3) =>
                let acc2 := dictInsert (String.mk keyChars) v acc
                match skipJsonWs r3 with
                | [] => none
                | c3 :: r4 =>
                  if c3 = '\x7d' then some (acc2, r4)
                  else if c3 = ',' then parseMembers fuel acc2 (skipJsonWs r4)
                  else none
            else none
      else none

/-- The elements of a JSON array after its opening bracket and leading
whitespace (JSONArray): a value, then either a closing bracket or a
comma and further elements. -/
def parseElems : Nat → List Char → Option (List Json × List Char)
  | 0, _ => none
  | fuel + 1, cs =>
    match parseValue fuel cs with
    | none => none
    | some (v, r1) =>
      match skipJsonWs r1 with
      | [] => none
      | c2 :: r2 =>
        if c2 = ']' then some ([v], r2)
        else if c2 = ',' then (parseElems fuel (skipJsonWs r2)).map (fun p => (v :: p.1, p.2))
        else none

end

/-- json.loads: leading whitespace, one value, trailing whitespace, and
nothing else (a remaining token is the Extra data error). none models a
raised JSONDecodeError. -/
def jsonLoads (s : String) : Option Json :=
  match parseValue (s.data.length + 2) (skipJsonWs s.data) with
  | some (v, rest) => if skipJsonWs rest = [] then some v else none
  | none => none

/-! json.dumps with its default arguments (ensure_ascii, separators
comma-space and colon-space, no indent), and the Python str()/repr()
renderings used when values are interpolated into message strings. -/

/-- Lowercase hexadecimal digit. -/
def hexDigitLower (n : Nat) : Char :=
  if n < 10 then Char.ofNat (48 + n) else Char.ofNat (87 + n)

/-- Four lowercase hexadecimal digits. -/
def u4hex (n : Nat) : List Char :=
  [hexDigitLower (n / 4096 % 16), hexDigitLower (n / 256 % 16),
   hexDigitLower (n / 16 % 16), hexDigitLower (n % 16)]

/-- One character of a dumped JSON string under ensure_ascii: printable
ASCII passes through, the two-character escapes cover the JSON short
escapes, every other character becomes backslash-u escapes (a surrogate
pair for astral characters). -/
def escapeJsonChar (c : Char) : List Char :=
  if c = '"' then ['\\', '"']
  else if c = '\\' then ['\\', '\\']
  else if c = '\n' then ['\\', 'n']
  else if c = '\r' then ['\\', 'r']
  else if c = '\t' then ['\\', 't']
  else if c.toNat = 0x08 then ['\\', 'b']
  else if c.toNat = 0x0c then ['\\', 'f']
  else if c.toNat < 0x20 then '\\' :: 'u' :: u4hex c.toNat
  else if c.toNat < 0x7f then [c]
  else if c.toNat < 0x10000 then '\\' :: 'u' :: u4hex c.toNat
  else
    ('\\' :: 'u' :: u4hex (0xd800 + (c.toNat - 0x10000) / 1024)) ++
    ('\\' :: 'u' :: u4hex (0xdc00 + (c.toNat - 0x10000) % 1024))

/-- Dumped form of a JSON string body. -/
def escapeJsonString (s : String) : String :=
  String.mk (s.data.foldr (fun c acc => escapeJsonChar c ++ acc) [])

/-- Text of a dumped float; the shortest-repr algorithm of Python floats
is modelled syntactically by the mantissa-exponent pair. -/
def floatText (m e : Int) : String :=
  toString m ++ "e" ++ toString e

mutual

/-- json.dumps with default arguments. -/
def jsonDumps : Json → String
  | .null => "null"
  | .bool true => "true"
  | .bool false => "false"
  | .num n => toString n
  | .numF m e => floatText m e
  | .nan => "NaN"
  | .inf false => "Infinity"
  | .inf true => "-Infinity"
  | .str s => "\"" ++ escapeJsonString s ++ "\""
  | .arr xs => "[" ++ String.intercalate ", " (jsonDumpsList xs) ++ "]"
  | .obj fs => "\x7b" ++ String.intercalate ", " (jsonDumpsFields fs) ++ "\x7d"

/-- Dumped forms of array elements. -/
def jsonDumpsList : List Json → List String
  | [] => []
  | x :: xs => jsonDumps x :: jsonDumpsList xs

/-- Dumped forms of object members, key colon-space value. -/
def jsonDumpsFields : List (String × Json) → List String
  | [] => []
  | (k, v) :: fs => ("\"" ++ escapeJsonString k ++ "\": " ++ jsonDumps v) :: jsonDumpsFields fs

end

/-- One character of a Python repr string under the given quote
character; printability classes outside ASCII are simplified to
pass-through. -/
def pyReprChar (q : Char) (c : Char) : List Char :=
  if c = '\\' then ['\\', '\\']
  else if c = q then ['\\', q]
  else if c = '\n' then ['\\', 'n']
  else if c = '\r' then ['\\', 'r']
  else if c = '\t' then ['\\', 't']
  else if c.toNat < 0x20 || c.toNat = 0x7f then
    ['\\', 'x', hexDigitLower (c.toNat / 16), hexDigitLower (c.toNat % 16)]
  else [c]

/-- Python repr of a str: single-quoted, or double-quoted when the text
holds a single quote but no double quote. -/
def pyReprStr (s : String) : String :=
  let q : Char := if s.data.contains (Char.ofNat 39) && !(s.data.contains '"') then '"' else Char.ofNat 39
  String.mk (q :: s.data.foldr (fun c acc => pyReprChar q c ++ acc) [q])

mutual

/-- Python repr of a decoded value (the form a dict or list takes inside
an f-string). -/
def pyRepr : Json → String
  | .null => "None"
  | .bool true => "True"
  | .bool false => "False"
  | .num n => toString n
  | .numF m e => floatText m e
  | .nan => "nan"
  | .inf false => "inf"
  | .inf true => "-inf"
  | .str s => pyReprStr s
  | .arr xs => "[" ++ String.intercalate ", " (pyReprList xs) ++ "]"
  | .obj fs => "\x7b" ++ String.intercalate ", " (pyReprFields fs) ++ "\x7d"

/-- Python reprs of list elements. -/
def pyReprList : List Json → List String
  | [] => []
  | x :: xs => pyRepr x :: pyReprList xs

/-- Python reprs of dict items, key colon-space value. -/
def pyReprFields : List (String × Json) → List String
  | [] => []
  | (k, v) :: fs => (pyReprStr k ++ ": " ++ pyRepr v) :: pyReprFields fs

end

/-- Python str() of a decoded value: scalars render specially, container
values render as their repr. -/
def pyStrJson (v : Json) : String :=
  match v with
  | .null => "None"
  | .bool true => "True"
  | .bool false => "False"
  | .num n => toString n
  | .numF m e => floatText m e
  | .nan => "nan"
  | .inf false => "inf"
  | .inf true => "-inf"
  | .str s => s
  | .arr _ => pyRepr v
  | .obj _ => pyRepr v

/-- Python truthiness of a decoded value. -/
def pyTruthy (v : Json) : Bool :=
  match v with
  | .null => false
  | .bool b => b
  | .num n => n != 0
  | .numF m _ => m != 0
  | .nan => true
  | .inf _ => true
  | .str s => s != ""
  | .arr l => !l.isEmpty
  | .obj f => !f.isEmpty

/-! The output normalizer of execute_dbt_command (src/src/command.py,
lines 124-148): the ordered format hypotheses applied to captured
standard output. -/

/-- The decoded payload of a command result: either the raw captured
text, or a parsed JSON structure. -/
inductive DecodedOutput where
  | asText (s : String) : DecodedOutput
  | asJson (v : Json) : DecodedOutput
deriving DecidableEq

/-- The trigger condition of the cloud-log-array hypothesis: the
stripped text starts with a left bracket and the raw text holds the
quoted name-colon substring. -/
def decodeTrigger (stdout : String) : Bool :=
  strStartsWith (pyStrip stdout) "[" && containsStr stdout "\"name\":"

/-- The element check of the cloud-log-array hypothesis: a list in which
every element is a dict holding a name key. -/
def isCloudArray (v : Json) : Bool :=
  match v with
  | Json.arr items =>
    items.all (fun it =>
      match it with
      | Json.obj f => hasKey f "name"
      | _ => false)
  | _ => false

/-- The stdout decoding of execute_dbt_command: when the trigger
condition holds, attempt the whole text as a JSON array and accept it
only when the element check passes, keeping the raw text otherwise;
when the trigger does not hold, attempt plain JSON, keeping the raw
text on failure. -/
def decode (stdout : String) : DecodedOutput :=
  if decodeTrigger stdout then
    match jsonLoads stdout with
    | some v => if isCloudArray v then DecodedOutput.asJson v else DecodedOutput.asText stdout
    | none => DecodedOutput.asText stdout
  else
    match jsonLoads stdout with
    | some v => DecodedOutput.asJson v
    | none => DecodedOutput.asText stdout

/-! The process runner result (src/src/command.py, lines 108-175). -/

/-- The result record returned by execute_dbt_command. -/
structure CommandResult where
  success : Bool
  output : Option DecodedOutput
  error : Option String
  returncode : Int
deriving DecidableEq

/-- What the attempt to spawn and await the child process produced:
either an exit code with the captured stream texts, or an exception
(whose message and formatted stack trace are carried). -/
inductive SpawnOutcome where
  | ok (returncode : Int) (stdout stderr : String) : SpawnOutcome
  | exn (message : String) (stackTrace : String) : SpawnOutcome

/-- The result construction of execute_dbt_command: on a completed
process, success is exit code zero, output is the decoded stdout, error
is the captured stderr only on failure; on a spawn exception, the
synthetic launch-failure record. -/
def execute_dbt_command : SpawnOutcome → CommandResult
  | SpawnOutcome.ok rc out err =>
    { success := rc == 0
      output := some (decode out)
      error := if rc == 0 then none else some err
      returncode := rc }
  | SpawnOutcome.exn msg trace =>
    { success := false
      output := none
      error := some (msg ++ "\nStack trace: " ++ trace)
      returncode := -1 }

/-! parse_dbt_list_output (src/src/command.py, lines 178-302). -/

/-- Split off a leading HH:MM:SS group: two ASCII digits, a colon, two
digits, a colon, two digits. Returns the remaining characters. -/
def ts8Split : List Char → Option (List Char)
  | d1 :: d2 :: c1 :: d3 :: d4 :: c2 :: d5 :: d6 :: rest =>
    if isAsciiDigit d1 && isAsciiDigit d2 && c1 = ':' && isAsciiDigit d3 &&
       isAsciiDigit d4 && c2 = ':' && isAsciiDigit d5 && isAsciiDigit d6
    then some rest else none
  | _ => none

/-- Length of the maximal whitespace run at the head of the input. -/
def wsRunLen : List Char → Nat
  | [] => 0
  | c :: cs => if pyIsSpace c then wsRunLen cs + 1 else 0

/-- The dot-plus-dollar tail of the timestamp regex on the remaining
characters: at least one character, none of them a newline, with a
single final newline permitted (and excluded from the group). -/
def dotPlusEnd (r : List Char) : Option (List Char) :=
  if r.isEmpty then none
  else if r.dropLast.contains '\n' then none
  else if r.getLast? = some '\n' then
    if 2 ≤ r.length then some r.dropLast else none
  else some r

/-- Greedy backtracking over the whitespace-run length of the timestamp
regex: the longest gap whose remainder matches dot-plus-dollar wins. -/
def tsTryGaps : Nat → List Char → Option (List Char)
  | 0, _ => none
  | k + 1, tail =>
    match dotPlusEnd (tail.drop (k + 1)) with
    | some p => some p
    | none => tsTryGaps k tail

/-- The timestamp-prefix regex of parse_dbt_list_output: an HH:MM:SS
group, one or more whitespace characters, then the captured payload
extending to the end of the line. Returns the second capture group. -/
def tsMatch (s : String) : Option String :=
  match ts8Split s.data with
  | some tail => (tsTryGaps (wsRunLen tail) tail).map String.mk
  | none => none

/-- The housekeeping log fragments skipped by the cloud branch of
parse_dbt_list_output. -/
def logFragments : List String :=
  ["Sending project", "Created invocation", "Waiting for",
   "Streaming", "Running dbt", "Invocation has finished"]

/-- Keep-or-discard decision of the cloud branch for one element name
string: housekeeping fragments are discarded; a string that starts with
a left brace and literally holds quoted name-colon and quoted
resource-type-colon substrings is parsed whole and kept when it decodes
to a dict with both keys; otherwise a timestamp-prefixed payload is
parsed and kept under the same conditions; everything else is
discarded. -/
def cloudKeep (s : String) : Option Json :=
  if logFragments.any (fun frag => containsStr s frag) then none
  else
    let bare : Option Json :=
      if strStartsWith s "\x7b" && containsStr s "\"name\":" && containsStr s "\"resource_type\":" then
        match jsonLoads s with
        | some (Json.obj f) =>
          if hasKey f "name" && hasKey f "resource_type" then some (Json.obj f) else none
        | _ => none
      else none
    match bare with
    | some m => some m
    | none =>
      match tsMatch s with
      | some payload =>
        match jsonLoads payload with
        | some (Json.obj f) =>
          if hasKey f "name" && hasKey f "resource_type" then some (Json.obj f) else none
        | _ => none
      | none => none

/-- The element loop of the cloud branch: every element contributes its
kept record in order; an element whose name value is not a string makes
the substring tests raise a TypeError, modelled as none. -/
def extractCloudLoop : List Json → Option (List Json)
  | [] => some []
  | item :: rest =>
    match objGet item "name" with
    | some (Json.str s) =>
      match extractCloudLoop rest with
      | some tailRes => some ((cloudKeep s).toList ++ tailRes)
      | none => none
    | _ => none

/-- One record of the nodes branch: the dict literal name-key-then-
splatted-details, so a name field inside the details overwrites the
key-derived binding in place. -/
def mkRecord (k : String) (details : List (String × Json)) : Json :=
  Json.obj (details.foldl (fun acc kv => dictInsert kv.1 kv.2 acc) [("name", Json.str k)])

/-- The nodes comprehension: one record per entry; a detail value that
is not a dict cannot be splatted and raises a TypeError, modelled as
none. -/
def nodesToRecords : List (String × Json) → Option (List Json)
  | [] => some []
  | (k, Json.obj df) :: rest => (nodesToRecords rest).map (fun l => mkRecord k df :: l)
  | _ => none

/-- The element check of the cloud branch: a dict holding a name key. -/
def isObjWithName (it : Json) : Bool :=
  match it with
  | Json.obj f => hasKey f "name"
  | _ => false

/-- One stripped non-empty line of the text branch: the bare-JSON test
and the timestamp test of the cloud branch, but falling back to a
name-only record instead of discarding. -/
def textKeep (line : String) : Json :=
  let bare : Option Json :=
    if strStartsWith line "\x7b" && containsStr line "\"name\":" && containsStr line "\"resource_type\":" then
      match jsonLoads line with
      | some (Json.obj f) =>
        if hasKey f "name" && hasKey f "resource_type" then some (Json.obj f) else none
      | _ => none
    else none
  match bare with
  | some m => m
  | none =>
    match tsMatch line with
    | some payload =>
      match jsonLoads payload with
      | some (Json.obj f) =>
        if hasKey f "name" && hasKey f "resource_type" then Json.obj f
        else Json.obj [("name", Json.str line)]
      | _ => Json.obj [("name", Json.str line)]
    | none => Json.obj [("name", Json.str line)]

/-- The text branch of parse_dbt_list_output: lines are stripped, blank
lines skipped, each remaining line yields exactly one record. -/
def textParseLines (s : String) : List Json :=
  (pySplitlines s).filterMap (fun rawLine =>
    let line := pyStrip rawLine
    if line = "" then none else some (textKeep line))

/-- parse_dbt_list_output: the four branches in source order. A dict
with a nodes key yields the nodes records. A list whose elements all
are dicts with a name key runs the cloud extraction (the source returns
the extracted models when non-empty and an empty list otherwise, which
coincide). Any other list passes through unchanged. A string is parsed
as JSON and its nodes or list shape handled as above, with the
line-based text parse on JSON failure. Everything else returns the
empty list. none models an uncaught exception. -/
def parse_dbt_list_output (output : Json) : Option (List Json) :=
  match output with
  | Json.obj fields =>
    match lookupFirst "nodes" fields with
    | some (Json.obj nf) => nodesToRecords nf
    | some _ => none
    | none => some []
  | Json.arr items =>
    if items.all isObjWithName then extractCloudLoop items
    else some items
  | Json.str s =>
    match jsonLoads s with
    | some (Json.obj pf) =>
      match lookupFirst "nodes" pf with
      | some (Json.obj nf) => nodesToRecords nf
      | some _ => none
      | none => some []
    | some (Json.arr l) => some l
    | some _ => some []
    | none => some (textParseLines s)
  | _ => some []

/-! ls_formatter (src/src/formatters.py, lines 32-75): filtering,
sorting and the fallback applied to the parsed resource list before
JSON serialization. -/

/-- The recognized resource kinds of the listing filter. -/
def lsKnownTypes : List String :=
  ["model", "seed", "test", "source", "snapshot"]

/-- The filter predicate of ls_formatter: a dict whose resource_type
value is one of the recognized kind strings. -/
def lsKeep (item : Json) : Bool :=
  match item with
  | Json.obj fields =>
    match lookupFirst "resource_type" fields with
    | some (Json.str t) => lsKnownTypes.contains t
    | _ => false
  | _ => false

/-- x.get(k, "") as used by the sort key. A present non-string field
would make the Python tuple comparison raise; the ResourceListing data
model types both fields as strings, and the theorems carry that
hypothesis, so the empty-string default covers the remaining cases. -/
def pyGetStrField (item : Json) (k : String) : String :=
  match objGet item k with
  | some (Json.str s) => s
  | _ => ""

/-- The sort key of ls_formatter: the resource_type and name fields,
an absent field reading as the empty string. -/
def sortKey (item : Json) : String × String :=
  (pyGetStrField item "resource_type", pyGetStrField item "name")

/-- Ascending lexicographic comparison of sort keys, as Python compares
the key tuples. -/
def recLE (x y : Json) : Prop :=
  (sortKey x).1 < (sortKey y).1 ∨
  ((sortKey x).1 = (sortKey y).1 ∧ (sortKey x).2 ≤ (sortKey y).2)

instance : DecidableRel recLE := fun x y => by
  unfold recLE
  infer_instance

instance : IsTotal Json recLE where
  total x y := by
    unfold recLE
    rcases lt_trichotomy (sortKey x).1 (sortKey y).1 with h | h | h
    · exact Or.inl (Or.inl h)
    · rcases le_total (sortKey x).2 (sortKey y).2 with h2 | h2
      · exact Or.inl (Or.inr ⟨h, h2⟩)
      · exact Or.inr (Or.inr ⟨h.symm, h2⟩)
    · exact Or.inr (Or.inl h)

instance : IsTrans Json recLE where
  trans x y z hxy hyz := by
    unfold recLE at *
    rcases hxy with h1 | ⟨e1, l1⟩
    · rcases hyz with h2 | ⟨e2, _⟩
      · exact Or.inl (h1.trans h2)
      · exact Or.inl (e2 ▸ h1)
    · rcases hyz with h2 | ⟨e2, l2⟩
      · exact Or.inl (e1 ▸ h2)
      · exact Or.inr ⟨e1.trans e2, l1.trans l2⟩

/-- Python list.sort with the ls_formatter key: a stable ascending sort
(stable sorts under a total preorder agree, so insertion sort models
the source sort extensionally). -/
def sortRecords (l : List Json) : List Json :=
  List.insertionSort recLE l

/-- The json-format core of ls_formatter after parsing (lines 59-71 of
src/src/formatters.py): filter to recognized kinds, sort by the key,
and abandon the filter when it removed everything while the parsed
list was non-empty. JSON serialization of the returned list is applied
afterwards by the source and is not part of this core. -/
def ls_formatter_core (parsed : List Json) : List Json :=
  let sorted := sortRecords (parsed.filter lsKeep)
  if sorted.isEmpty && !parsed.isEmpty then parsed else sorted

/-! show_formatter (src/src/formatters.py, lines 78-116). -/

/-- The filtered strip of the header and row comprehensions: strip each
piece and drop the ones that strip to nothing. -/
def stripNonEmpty (ss : List String) : List String :=
  ss.filterMap (fun h =>
    let t := pyStrip h
    if t = "" then none else some t)

/-- Python line.split on the pipe character. -/
def splitPipes (s : String) : List String :=
  (splitOnChar '|' s.data).map String.mk

/-- dict(zip(header, values)) with string values. -/
def zipToDict (header values : List String) : List (String × Json) :=
  (header.zip values).foldl (fun acc kv => dictInsert kv.1 (Json.str kv.2) acc) []

/-- The tabular conversion of show_formatter applied to text: strip the
text, split on newlines; with more than two lines, read the first line
as pipe-separated headers, skip the separator line, and keep each
further non-blank pipe-containing line whose field count matches the
header count as a row dict; serialize the rows. With two lines or
fewer the text is returned unchanged. The conversion is total on
strings, so the exception fallback of the source is never taken. -/
def show_formatter_text (s : String) : String :=
  let lines := (splitOnChar '\n' (pyStripList s.data)).map String.mk
  if 2 < lines.length then
    match lines with
    | l0 :: _ :: restRows =>
      let header := stripNonEmpty (splitPipes (pyStrip l0))
      let rows := restRows.filterMap (fun line =>
        if (pyStrip line != "") && containsStr line "|" then
          let values := stripNonEmpty (splitPipes (pyStrip line))
          if values.length = header.length then
            some (Json.obj (zipToDict header values))
          else none
        else none)
      jsonDumps (Json.arr rows)
    | _ => s
  else s

/-- show_formatter: an already-structured dict or list value is dumped
directly; any other value runs the tabular conversion on its text. -/
def show_formatter (output : DecodedOutput) : String :=
  match output with
  | DecodedOutput.asJson (Json.obj f) => jsonDumps (Json.obj f)
  | DecodedOutput.asJson (Json.arr l) => jsonDumps (Json.arr l)
  | DecodedOutput.asJson v => show_formatter_text (pyStrJson v)
  | DecodedOutput.asText s => show_formatter_text s

/-! The CLI surface (src/src/cli.py): the per-command wrappers share
one result-to-string shape, and main_async prints the string and exits.
The model starts after argument parsing, from the chosen subcommand
name and the result the underlying execute_dbt_command produced. -/

/-- The subcommands of the command map of main_async. -/
def cliCommandNames : List String :=
  ["run", "test", "ls", "compile", "debug", "deps", "seed", "show", "build", "configure"]

/-- A single quote character (kept out of string literals). -/
def sqChar : Char := Char.ofNat 39

/-- Python str() of the output slot as interpolated into messages. -/
def pyStrOutput : Option DecodedOutput → String
  | some (DecodedOutput.asText s) => s
  | some (DecodedOutput.asJson v) => pyStrJson v
  | none => "None"

/-- Truthiness of the output slot. -/
def outputTruthy : Option DecodedOutput → Bool
  | some (DecodedOutput.asText s) => s != ""
  | some (DecodedOutput.asJson v) => pyTruthy v
  | none => false

/-- The failure message built by every run_dbt wrapper in cli.py: the
error text, and the output appended when truthy. -/
def toolErrorMessage (cmdName : String) (r : CommandResult) : String :=
  "Error executing dbt " ++ cmdName ++ ": " ++
  (match r.error with
   | some e => e
   | none => "None") ++
  (if outputTruthy r.output then "\nOutput: " ++ pyStrOutput r.output else "")

/-- The success rendering shared by the wrappers: json.dumps for a dict
or list output, str() otherwise. -/
def defaultRender : Option DecodedOutput → String
  | some (DecodedOutput.asJson (Json.obj f)) => jsonDumps (Json.obj f)
  | some (DecodedOutput.asJson (Json.arr l)) => jsonDumps (Json.arr l)
  | some (DecodedOutput.asJson v) => pyStrJson v
  | some (DecodedOutput.asText s) => s
  | none => "None"

/-- The string a run_dbt wrapper returns for a command result. -/
def toolResultString (cmdName : String) (r : CommandResult) : String :=
  if r.success then defaultRender r.output else toolErrorMessage cmdName r

/-- What the CLI process does after dispatch: the text printed and the
process exit status. -/
structure CliOutcome where
  printed : String
  exitCode : Nat
deriving DecidableEq

/-- main_async after argument parsing, text output format: a command
name outside the command map prints the usage hint and exits 1; a known
command prints the string its wrapper returned and the process then
exits 0 (no failure branch sets a nonzero status). -/
def cli_main (cmd : String) (r : CommandResult) : CliOutcome :=
  if cliCommandNames.contains cmd then
    { printed := toolResultString cmd r, exitCode := 0 }
  else
    { printed := "Command " ++ String.mk [sqChar] ++ cmd ++ String.mk [sqChar] ++
        " not found. Use --help for usage information."
      exitCode := 1 }

/-! Auxiliary predicates used by the theorem statements. -/

/-- The per-element keep decision of the cloud branch, reading the name
value of the element. -/
def cloudKeepItem (it : Json) : Option Json :=
  match objGet it "name" with
  | some (Json.str s) => cloudKeep s
  | _ => none

/-- The terminal color-escape marker: the escape character followed by
a left bracket. -/
def ansiMark : String := "\x1b["

/-- The ResourceListing typing of the listing data model: the name and
resource_type fields, where present, are strings. -/
def recordWellTyped (item : Json) : Bool :=
  match item with
  | Json.obj fields =>
    (match lookupFirst "name" fields with
     | some (Json.str _) => true
     | none => true
     | _ => false) &&
    (match lookupFirst "resource_type" fields with
     | some (Json.str _) => true
     | none => true
     | _ => false)
  | _ => true

/-- A dict input holding a nodes key. -/
def isNodesDict (v : Json) : Bool :=
  match v with
  | Json.obj f => hasKey f "nodes"
  | _ => false

/-- A list input. -/
def isListShape (v : Json) : Bool :=
  match v with
  | Json.arr _ => true
  | _ => false

/-- A string input. -/
def isStrShape (v : Json) : Bool :=
  match v with
  | Json.str _ => true
  | _ => false

/-- The terminal escape character. -/
def escChar : Char := '\x1b'

/-- An element whose name value is a string (the typing of the
cloud-log-array shape in the specification). -/
def nameIsString (it : Json) : Bool :=
  match objGet it "name" with
  | some (Json.str _) => true
  | _ => false

/-! Helper lemmas about dict insertion and lookup. -/

theorem lookup_dictInsert (k k2 : String) (v : Json) (l : List (String × Json)) :
    lookupFirst k (dictInsert k2 v l) = if k2 = k then some v else lookupFirst k l := by
  induction l with
  | nil => simp [dictInsert, lookupFirst]
  | cons hd tl ih =>
    obtain ⟨k1, v1⟩ := hd
    by_cases h1 : k1 = k2
    · subst h1
      by_cases h2 : k1 = k <;> simp [dictInsert, lookupFirst, h2]
    · by_cases h2 : k1 = k
      · subst h2
        simp [dictInsert, lookupFirst, h1, Ne.symm h1]
      · simp [dictInsert, lookupFirst, h1, h2, ih]

theorem lookup_foldl_notMem (k : String) (df init : List (String × Json))
    (h : ∀ kv ∈ df, kv.1 ≠ k) :
    lookupFirst k (df.foldl (fun acc kv => dictInsert kv.1 kv.2 acc) init) =
      lookupFirst k init := by
  induction df generalizing init with
  | nil => rfl
  | cons hd tl ih =>
    simp only [List.foldl_cons]
    rw [ih _ (fun kv hkv => h kv (List.mem_cons_of_mem _ hkv))]
    rw [lookup_dictInsert]
    simp [h hd (List.mem_cons_self _ _)]

theorem lookup_foldl (k : String) (df init : List (String × Json))
    (hnodup : (df.map Prod.fst).Nodup) :
    lookupFirst k (df.foldl (fun acc kv => dictInsert kv.1 kv.2 acc) init) =
      match lookupFirst k df with
      | some v => some v
      | none => lookupFirst k init := by
  induction df generalizing init with
  | nil => simp [lookupFirst]
  | cons hd tl ih =>
    obtain ⟨k1, v1⟩ := hd
    simp only [List.map_cons, List.nodup_cons] at hnodup
    obtain ⟨hk1, htl⟩ := hnodup
    simp only [List.foldl_cons]
    by_cases hk : k1 = k
    · subst hk
      rw [lookup_foldl_notMem]
      · rw [lookup_dictInsert]
        simp [lookupFirst]
      · intro kv hkv heq
        exact hk1 (heq ▸ List.mem_map_of_mem Prod.fst hkv)
    · rw [ih _ htl, lookup_dictInsert]
      simp [lookupFirst, hk]

theorem mkRecord_name (k : String) (df : List (String × Json))
    (hnodup : (df.map Prod.fst).Nodup) :
    objGet (mkRecord k df) "name" =
      some ((lookupFirst "name" df).getD (Json.str k)) := by
  simp only [mkRecord, objGet]
  rw [lookup_foldl _ _ _ hnodup]
  cases h : lookupFirst "name" df <;> simp [lookupFirst, h]

theorem nodesToRecords_map (nf : List (String × List (String × Json))) :
    nodesToRecords (nf.map (fun kv => (kv.1, Json.obj kv.2))) =
      some (nf.map (fun kv => mkRecord kv.1 kv.2)) := by
  induction nf with
  | nil => rfl
  | cons hd tl ih => simp [nodesToRecords, ih]

/-- A non-empty list is not isEmpty. -/
theorem isEmpty_false_of_ne_nil {α : Type} (l : List α) (h : l ≠ []) : l.isEmpty = false := by
  cases l with
  | nil => exact absurd rfl h
  | cons a t => rfl

/-- C2 counterexample: on input nodes of a maps-to name X and b maps-to
empty, parse_dbt_list_output yields the records name X and name b — the
detail name overwrites the key-derived name, so the output differs from
the records name a and name b the claim promises. -/
theorem nodes_detail_name_wins_counterexample :
    parse_dbt_list_output
        (Json.obj [("nodes", Json.obj [("a", Json.obj [("name", Json.str "X")]),
                                       ("b", Json.obj [])])]) =
      some [Json.obj [("name", Json.str "X")], Json.obj [("name", Json.str "b")]] ∧
    some [Json.obj [("name", Json.str "X")], Json.obj [("name", Json.str "b")]] ≠
      some [Json.obj [("name", Json.str "a")], Json.obj [("name", Json.str "b")]] := by
  exact ⟨by decide, by decide⟩

/-- C2 (amended): for a dict input with a nodes key mapping identifiers
to detail dicts, parse_dbt_list_output produces one record per entry
built as the dict literal of a key-derived name binding splatted with
the detail fields, so a name field inside the detail object overwrites
the key-derived name; the key-derived name applies only when the detail
object has none. -/
theorem nodes_merge_detail_name_wins (nf : List (String × List (String × Json)))
    (hnodup : ∀ kv ∈ nf, (kv.2.map Prod.fst).Nodup) :
    parse_dbt_list_output
        (Json.obj [("nodes", Json.obj (nf.map (fun kv => (kv.1, Json.obj kv.2))))]) =
      some (nf.map (fun kv => mkRecord kv.1 kv.2)) ∧
    ∀ kv ∈ nf, objGet (mkRecord kv.1 kv.2) "name" =
      some ((lookupFirst "name" kv.2).getD (Json.str kv.1)) := by
  constructor
  · simp [parse_dbt_list_output, lookupFirst, nodesToRecords_map]
  · intro kv hkv
    exact mkRecord_name kv.1 kv.2 (hnodup kv hkv)

/-- Witness for the amended C2 theorem at the example input of the
claim. -/
theorem nodes_merge_detail_name_wins_witness :
    (∀ kv ∈ [("a", [("name", Json.str "X")]), ("b", ([] : List (String × Json)))],
        ((kv.2.map Prod.fst).Nodup)) ∧
    (parse_dbt_list_output
        (Json.obj [("nodes", Json.obj (([("a", [("name", Json.str "X")]), ("b", [])] :
            List (String × List (String × Json))).map (fun kv => (kv.1, Json.obj kv.2))))]) =
      some (([("a", [("name", Json.str "X")]), ("b", [])] :
            List (String × List (String × Json))).map (fun kv => mkRecord kv.1 kv.2)) ∧
    ∀ kv ∈ ([("a", [("name", Json.str "X")]), ("b", [])] :
            List (String × List (String × Json))),
      objGet (mkRecord kv.1 kv.2) "name" =
        some ((lookupFirst "name" kv.2).getD (Json.str kv.1))) :=
  ⟨by decide, nodes_merge_detail_name_wins _ (by decide)⟩

/-- C10 counterexample: a dict whose nodes entry maps a key to a
non-dict detail cannot be splatted into the record literal; the
comprehension raises a TypeError, modelled as none, so the function is
not total over all inputs. -/
theorem parse_list_output_not_total_counterexample :
    parse_dbt_list_output (Json.obj [("nodes", Json.obj [("a", Json.num 5)])]) = none := by
  decide

/-- C10 (amended): parse_dbt_list_output returns the empty list for
every input matching none of the recognized shapes: a dict without a
nodes key, or any value that is neither a dict, a list nor a string. -/
theorem parse_list_output_unrecognized_shapes (v : Json)
    (h1 : isNodesDict v = false) (h2 : isListShape v = false) (h3 : isStrShape v = false) :
    parse_dbt_list_output v = some [] := by
  cases v with
  | obj fields =>
    cases hl : lookupFirst "nodes" fields with
    | some w => simp [isNodesDict, hasKey, hl] at h1
    | none => simp [parse_dbt_list_output, hl]
  | arr l => simp [isListShape] at h2
  | str s => simp [isStrShape] at h3
  | null => rfl
  | bool b => rfl
  | num n => rfl
  | numF m e => rfl
  | nan => rfl
  | inf b => rfl

/-- Witness for the amended C10 theorem at a numeric input. -/
theorem parse_list_output_unrecognized_shapes_witness :
    (isNodesDict (Json.num 7) = false ∧ isListShape (Json.num 7) = false ∧
      isStrShape (Json.num 7) = false) ∧
    parse_dbt_list_output (Json.num 7) = some [] :=
  ⟨by decide,
   parse_list_output_unrecognized_shapes (Json.num 7) (by decide) (by decide) (by decide)⟩

/-- C4: for every spawn outcome the error slot is non-null exactly when
success is false; on the normal path the output slot always carries the
decoded stdout, failure included, and only the launch-failure path
leaves it null. -/
theorem command_result_error_iff_failure :
    (∀ o : SpawnOutcome,
      ((execute_dbt_command o).error ≠ none ↔ (execute_dbt_command o).success = false)) ∧
    (∀ (rc : Int) (out err : String),
      (execute_dbt_command (SpawnOutcome.ok rc out err)).output = some (decode out)) ∧
    (∀ msg trace : String,
      (execute_dbt_command (SpawnOutcome.exn msg trace)).output = none) := by
  refine ⟨?_, ?_, ?_⟩
  · intro o
    cases o with
    | ok rc out err => cases h : (rc == 0) <;> simp [execute_dbt_command, h]
    | exn m t => simp [execute_dbt_command]
  · intro rc out err
    rfl
  · intro m t
    rfl

/-- C5: when the cloud trigger does not hold, any text json.loads
accepts decodes to its parsed structure; any text json.loads rejects
decodes to itself unchanged, whatever the trigger. -/
theorem decode_plain_json_and_text_fallback :
    (∀ (s : String) (v : Json), decodeTrigger s = false → jsonLoads s = some v →
        decode s = DecodedOutput.asJson v) ∧
    (∀ s : String, jsonLoads s = none → decode s = DecodedOutput.asText s) := by
  constructor
  · intro s v ht hj
    simp [decode, ht, hj]
  · intro s hj
    cases ht : decodeTrigger s <;> simp [decode, ht, hj]

/-- Witness for the C5 theorem at a JSON object text and a non-JSON
text. -/
theorem decode_plain_json_and_text_fallback_witness :
    (decodeTrigger "\x7b\"a\": 1\x7d" = false ∧
      jsonLoads "\x7b\"a\": 1\x7d" = some (Json.obj [("a", Json.num 1)]) ∧
      decode "\x7b\"a\": 1\x7d" = DecodedOutput.asJson (Json.obj [("a", Json.num 1)])) ∧
    (jsonLoads "not json" = none ∧ decode "not json" = DecodedOutput.asText "not json") :=
  ⟨⟨by decide, by decide,
    decode_plain_json_and_text_fallback.1 _ _ (by decide) (by decide)⟩,
   ⟨by decide, decode_plain_json_and_text_fallback.2 _ (by decide)⟩⟩

/-- C1 counterexample: a text that is valid JSON, satisfies the
cloud-log trigger, but fails the every-element-has-name check decodes
to the raw string — the plain-JSON hypothesis is never attempted. -/
theorem decode_cloud_trigger_counterexample :
    decodeTrigger "[\x7b\"name\":1\x7d,2]" = true ∧
    jsonLoads "[\x7b\"name\":1\x7d,2]" =
      some (Json.arr [Json.obj [("name", Json.num 1)], Json.num 2]) ∧
    decode "[\x7b\"name\":1\x7d,2]" = DecodedOutput.asText "[\x7b\"name\":1\x7d,2]" ∧
    decode "[\x7b\"name\":1\x7d,2]" ≠
      DecodedOutput.asJson (Json.arr [Json.obj [("name", Json.num 1)], Json.num 2]) :=
  ⟨by decide, by decide, by decide, by decide⟩

/-- C1 (amended): once the cloud-log trigger condition holds, decode
commits to the cloud hypothesis: whether the array parse fails or the
element check fails, the decoded value is the raw text, and the
plain-JSON hypothesis is attempted only for texts on which the trigger
does not hold. -/
theorem decode_commits_to_cloud_hypothesis :
    (∀ (s : String) (v : Json), decodeTrigger s = true → jsonLoads s = some v →
        isCloudArray v = false → decode s = DecodedOutput.asText s) ∧
    (∀ s : String, decodeTrigger s = true → jsonLoads s = none →
        decode s = DecodedOutput.asText s) := by
  constructor
  · intro s v ht hj hc
    simp [decode, ht, hj, hc]
  · intro s ht hj
    simp [decode, ht, hj]

/-- Witness for the amended C1 theorem at the counterexample text. -/
theorem decode_commits_to_cloud_hypothesis_witness :
    (decodeTrigger "[\x7b\"name\":2\x7d,3]" = true ∧
      jsonLoads "[\x7b\"name\":2\x7d,3]" =
        some (Json.arr [Json.obj [("name", Json.num 2)], Json.num 3]) ∧
      isCloudArray (Json.arr [Json.obj [("name", Json.num 2)], Json.num 3]) = false) ∧
    decode "[\x7b\"name\":2\x7d,3]" = DecodedOutput.asText "[\x7b\"name\":2\x7d,3]" :=
  ⟨⟨by decide, by decide, by decide⟩,
   decode_commits_to_cloud_hypothesis.1 "[\x7b\"name\":2\x7d,3]"
     (Json.arr [Json.obj [("name", Json.num 2)], Json.num 3])
     (by decide) (by decide) (by decide)⟩

/-- C7: a spawn exception is recovered into the synthetic launch-failure
record carrying the message and stack trace with exit code -1 and null
output, and every completed process with a nonzero exit code reports
failure through the normal path with its real exit code and captured
stderr. -/
theorem launch_failure_recovery :
    (∀ msg trace : String, execute_dbt_command (SpawnOutcome.exn msg trace) =
      { success := false, output := none,
        error := some (msg ++ "\nStack trace: " ++ trace), returncode := -1 }) ∧
    (∀ (rc : Int) (out err : String), rc ≠ 0 →
      (execute_dbt_command (SpawnOutcome.ok rc out err)).success = false ∧
      (execute_dbt_command (SpawnOutcome.ok rc out err)).returncode = rc ∧
      (execute_dbt_command (SpawnOutcome.ok rc out err)).error = some err) := by
  constructor
  · intro msg trace
    rfl
  · intro rc out err h
    have hb : (rc == 0) = false := by simp [h]
    simp [execute_dbt_command, hb]

/-- Witness for the C7 theorem at exit code one. -/
theorem launch_failure_recovery_witness :
    ((1 : Int) ≠ 0) ∧
    ((execute_dbt_command (SpawnOutcome.ok 1 "out" "boom")).success = false ∧
      (execute_dbt_command (SpawnOutcome.ok 1 "out" "boom")).returncode = 1 ∧
      (execute_dbt_command (SpawnOutcome.ok 1 "out" "boom")).error = some "boom") :=
  ⟨by decide, launch_failure_recovery.2 1 "out" "boom" (by decide)⟩

/-- C8 counterexample: a dbt command failing with exit code one makes
the CLI print the diagnostic string and exit with status zero, not one. -/
theorem cli_failure_exit_code_counterexample :
    (execute_dbt_command (SpawnOutcome.ok 1 "" "boom")).success = false ∧
    cli_main "run" (execute_dbt_command (SpawnOutcome.ok 1 "" "boom")) =
      { printed := "Error executing dbt run: boom", exitCode := 0 } ∧
    (cli_main "run" (execute_dbt_command (SpawnOutcome.ok 1 "" "boom"))).exitCode ≠ 1 :=
  ⟨by decide, by decide, by decide⟩

/-- C8 (amended): the CLI exits 1 only for a subcommand outside the
command map, after printing the usage hint; for every known subcommand
it exits 0 whether the underlying command succeeded or failed, printing
the diagnostic string on failure. -/
theorem cli_exit_codes :
    (∀ (cmd : String) (r : CommandResult), cliCommandNames.contains cmd = false →
      cli_main cmd r =
        { printed := "Command " ++ String.mk [sqChar] ++ cmd ++ String.mk [sqChar] ++
            " not found. Use --help for usage information."
          exitCode := 1 }) ∧
    (∀ (cmd : String) (r : CommandResult), cliCommandNames.contains cmd = true →
      (cli_main cmd r).exitCode = 0 ∧
      (r.success = false → (cli_main cmd r).printed = toolErrorMessage cmd r)) := by
  constructor
  · intro cmd r h
    have hm : cmd ∉ cliCommandNames := by simpa using h
    simp [cli_main, hm]
  · intro cmd r h
    have hm : cmd ∈ cliCommandNames := by simpa using h
    refine ⟨by simp [cli_main, hm], ?_⟩
    intro hs
    simp [cli_main, hm, toolResultString, hs]

/-- Witness for the amended C8 theorem at an unknown subcommand and a
failing run. -/
theorem cli_exit_codes_witness :
    (cliCommandNames.contains "bogus" = false ∧
      cli_main "bogus" (execute_dbt_command (SpawnOutcome.ok 0 "" "")) =
        { printed := "Command " ++ String.mk [sqChar] ++ "bogus" ++ String.mk [sqChar] ++
            " not found. Use --help for usage information."
          exitCode := 1 }) ∧
    (cliCommandNames.contains "test" = true ∧
      (cli_main "test" (execute_dbt_command (SpawnOutcome.ok 2 "" "err"))).exitCode = 0 ∧
      ((execute_dbt_command (SpawnOutcome.ok 2 "" "err")).success = false →
        (cli_main "test" (execute_dbt_command (SpawnOutcome.ok 2 "" "err"))).printed =
          toolErrorMessage "test" (execute_dbt_command (SpawnOutcome.ok 2 "" "err")))) :=
  ⟨⟨by decide, cli_exit_codes.1 "bogus" _ (by decide)⟩,
   ⟨by decide,
    (cli_exit_codes.2 "test" _ (by decide)).1,
    fun _ => (cli_exit_codes.2 "test" _ (by decide)).2 (by decide)⟩⟩

/-- C9: the tabular conversion turns the example table into exactly one
row object, a table whose data row has a mismatched field count into
zero rows rather than raising, and returns any text with at most two
lines unchanged; the conversion is a total function of the text, so the
exception fallback of the source is never exercised on string input. -/
theorem show_formatter_tabular_conversion :
    show_formatter_text "a|b\n-|-\n1|2\n" = "[\x7b\"a\": \"1\", \"b\": \"2\"\x7d]" ∧
    show_formatter_text "a|b\n-|-\n1|2|3\n" = "[]" ∧
    (∀ s : String, (splitOnChar '\n' (pyStripList s.data)).length ≤ 2 →
      show_formatter_text s = s) := by
  refine ⟨by decide, by decide, ?_⟩
  intro s h
  have hn : ¬(2 < ((splitOnChar '\n' (pyStripList s.data)).map String.mk).length) := by
    rw [List.length_map]
    omega
  simp only [show_formatter_text]
  rw [if_neg hn]

/-- Witness for the C9 theorem at a single-line text. -/
theorem show_formatter_tabular_conversion_witness :
    ((splitOnChar '\n' (pyStripList "hello".data)).length ≤ 2) ∧
    show_formatter_text "hello" = "hello" :=
  ⟨by decide, show_formatter_tabular_conversion.2.2 "hello" (by decide)⟩

/-- C6: on a non-empty parsed resource list whose name and resource_type
fields are strings where present, the ls formatter core never returns an
empty list; when filtering to the recognized kinds removes every record
the filter is abandoned and the parsed list returned unchanged; and
otherwise the result is a permutation of the filtered records, sorted
ascending by the resource_type-name key with missing fields reading as
empty, every record carrying a recognized resource_type. -/
theorem ls_formatter_filter_sort_fallback (parsed : List Json) (hne : parsed ≠ [])
    (hwt : ∀ item ∈ parsed, recordWellTyped item = true) :
    ls_formatter_core parsed ≠ [] ∧
    (parsed.filter lsKeep = [] → ls_formatter_core parsed = parsed) ∧
    (parsed.filter lsKeep ≠ [] →
      (ls_formatter_core parsed).Perm (parsed.filter lsKeep) ∧
      List.Sorted recLE (ls_formatter_core parsed) ∧
      ∀ x ∈ ls_formatter_core parsed, lsKeep x = true) := by
  have hperm : (sortRecords (parsed.filter lsKeep)).Perm (parsed.filter lsKeep) :=
    List.perm_insertionSort recLE _
  by_cases hf : parsed.filter lsKeep = []
  · have hs0 : sortRecords (parsed.filter lsKeep) = [] := by
      rw [hf]
      rfl
    have hcore : ls_formatter_core parsed = parsed := by
      simp [ls_formatter_core, hs0, isEmpty_false_of_ne_nil parsed hne]
    refine ⟨?_, fun _ => hcore, fun hc => absurd hf hc⟩
    rw [hcore]
    exact hne
  · have hsne : sortRecords (parsed.filter lsKeep) ≠ [] := by
      intro h0
      exact hf (List.Perm.eq_nil (h0 ▸ hperm).symm)
    have hcore : ls_formatter_core parsed = sortRecords (parsed.filter lsKeep) := by
      simp [ls_formatter_core, isEmpty_false_of_ne_nil _ hsne]
    refine ⟨?_, fun hc => absurd hc hf, fun _ => ⟨?_, ?_, ?_⟩⟩
    · rw [hcore]
      exact hsne
    · rw [hcore]
      exact hperm
    · rw [hcore]
      exact List.sorted_insertionSort recLE _
    · intro x hx
      rw [hcore] at hx
      exact List.of_mem_filter (hperm.mem_iff.mp hx)

/-- Witness for the C6 theorem at a two-record listing that keeps both
records and sorts them by name. -/
theorem ls_formatter_filter_sort_fallback_witness :
    (([Json.obj [("name", Json.str "b"), ("resource_type", Json.str "model")],
       Json.obj [("name", Json.str "a"), ("resource_type", Json.str "model")]] :
        List Json) ≠ [] ∧
     ∀ item ∈ ([Json.obj [("name", Json.str "b"), ("resource_type", Json.str "model")],
       Json.obj [("name", Json.str "a"), ("resource_type", Json.str "model")]] :
        List Json), recordWellTyped item = true) ∧
    (ls_formatter_core
        [Json.obj [("name", Json.str "b"), ("resource_type", Json.str "model")],
         Json.obj [("name", Json.str "a"), ("resource_type", Json.str "model")]] ≠ [] ∧
     (([Json.obj [("name", Json.str "b"), ("resource_type", Json.str "model")],
        Json.obj [("name", Json.str "a"), ("resource_type", Json.str "model")]] :
         List Json).filter lsKeep = [] →
       ls_formatter_core
        [Json.obj [("name", Json.str "b"), ("resource_type", Json.str "model")],
         Json.obj [("name", Json.str "a"), ("resource_type", Json.str "model")]] =
        [Json.obj [("name", Json.str "b"), ("resource_type", Json.str "model")],
         Json.obj [("name", Json.str "a"), ("resource_type", Json.str "model")]]) ∧
     (([Json.obj [("name", Json.str "b"), ("resource_type", Json.str "model")],
        Json.obj [("name", Json.str "a"), ("resource_type", Json.str "model")]] :
         List Json).filter lsKeep ≠ [] →
       (ls_formatter_core
          [Json.obj [("name", Json.str "b"), ("resource_type", Json.str "model")],
           Json.obj [("name", Json.str "a"), ("resource_type", Json.str "model")]]).Perm
         (([Json.obj [("name", Json.str "b"), ("resource_type", Json.str "model")],
            Json.obj [("name", Json.str "a"), ("resource_type", Json.str "model")]] :
             List Json).filter lsKeep) ∧
       List.Sorted recLE (ls_formatter_core
          [Json.obj [("name", Json.str "b"), ("resource_type", Json.str "model")],
           Json.obj [("name", Json.str "a"), ("resource_type", Json.str "model")]]) ∧
       ∀ x ∈ ls_formatter_core
          [Json.obj [("name", Json.str "b"), ("resource_type", Json.str "model")],
           Json.obj [("name", Json.str "a"), ("resource_type", Json.str "model")]],
         lsKeep x = true)) :=
  ⟨⟨by decide, by decide⟩,
   ls_formatter_filter_sort_fallback _ (by decide) (by decide)⟩

/-! The escape character can never be consumed by the JSON parser: every
parsing function passes it through to its unconsumed remainder, so a
successful whole-text parse rules it out of the text entirely. This
underlies the discard of color-escape log lines, whose embedded JSON
parse always fails. -/

theorem mem_of_cons_ne {c a : Char} {l : List Char} (h : c ∈ a :: l) (hne : a ≠ c) :
    c ∈ l := by
  rcases List.mem_cons.mp h with h1 | h1
  · exact absurd h1.symm hne
  · exact h1

theorem skipJsonWs_mem {l : List Char} (h : escChar ∈ l) : escChar ∈ skipJsonWs l := by
  induction l with
  | nil => exact absurd h (List.not_mem_nil _)
  | cons c cs ih =>
    by_cases hw : jsonWsChar c = true
    · have hcne : c ≠ escChar := by
        intro he
        subst he
        exact absurd hw (by decide)
      simp only [skipJsonWs, hw, if_true]
      exact ih (mem_of_cons_ne h hcne)
    · simp only [skipJsonWs, hw, if_false]
      exact h

theorem hex4_mem {cs r : List Char} {n : Nat} (h : hex4 cs = some (n, r))
    (hm : escChar ∈ cs) : escChar ∈ r := by
  match cs with
  | [] => simp [hex4] at h
  | [_] => simp [hex4] at h
  | [_, _] => simp [hex4] at h
  | [_, _, _] => simp [hex4] at h
  | a :: b :: c :: d :: rest =>
    have hval : ∀ x : Char, x = escChar → hexDigitVal x = none := by
      intro x hx
      subst hx
      decide
    simp only [hex4] at h
    split at h
    case _ va vb vc vd hva hvb hvc hvd =>
      simp only [Option.some.injEq, Prod.mk.injEq] at h
      obtain ⟨-, hr⟩ := h
      subst hr
      have ha : a ≠ escChar := fun he => by rw [hval a he] at hva; cases hva
      have hb : b ≠ escChar := fun he => by rw [hval b he] at hvb; cases hvb
      have hc : c ≠ escChar := fun he => by rw [hval c he] at hvc; cases hvc
      have hd : d ≠ escChar := fun he => by rw [hval d he] at hvd; cases hvd
      exact mem_of_cons_ne (mem_of_cons_ne (mem_of_cons_ne (mem_of_cons_ne hm ha) hb) hc) hd
    case _ =>
      cases h

theorem map_snd_eq_some {α β γ : Type} {o : Option (α × γ)} {g : α → β} {b : β} {r : γ}
    (h : o.map (fun p => (g p.1, p.2)) = some (b, r)) : ∃ a, o = some (a, r) := by
  rcases Option.map_eq_some'.mp h with ⟨⟨a1, r1⟩, ho, heq⟩
  simp only [Prod.mk.injEq] at heq
  exact ⟨a1, heq.2 ▸ ho⟩

theorem takeDigits_mem : ∀ cs : List Char, escChar ∈ cs → escChar ∈ (takeDigits cs).2 := by
  intro cs h
  induction cs with
  | nil => exact absurd h (List.not_mem_nil _)
  | cons c rest ih =>
    by_cases hd : isAsciiDigit c = true
    · have hcne : c ≠ escChar := by
        intro he
        subst he
        exact absurd hd (by decide)
      simp only [takeDigits, hd, if_true]
      exact ih (mem_of_cons_ne h hcne)
    · simp only [takeDigits, hd, if_false]
      exact h

theorem scanFrac_mem {cs : List Char} (h : escChar ∈ cs) : escChar ∈ (scanFrac cs).2 := by
  match cs with
  | [] => exact absurd h (List.not_mem_nil _)
  | c :: r =>
    by_cases hc : c = '.'
    · subst hc
      have hr : escChar ∈ r := mem_of_cons_ne h (by decide)
      simp only [scanFrac, if_pos rfl]
      cases htd : takeDigits r with
      | mk ds r2 =>
        cases ds with
        | nil => simp only [htd]; exact h
        | cons d ds2 =>
          have hmem := takeDigits_mem r hr
          rw [htd] at hmem
          simp only [htd]
          exact hmem
    · simp only [scanFrac, if_neg hc]
      exact h

theorem expDigits_mem {orig r : List Char} (eneg : Bool)
    (ho : escChar ∈ orig) (hr : escChar ∈ r) : escChar ∈ (expDigits orig eneg r).2 := by
  simp only [expDigits]
  cases htd : takeDigits r with
  | mk ds r2 =>
    cases ds with
    | nil =>
      simp only [htd]
      exact ho
    | cons d ds2 =>
      have hmem := takeDigits_mem r hr
      rw [htd] at hmem
      simp only [htd]
      exact hmem

theorem scanExp_mem {cs : List Char} (h : escChar ∈ cs) : escChar ∈ (scanExp cs).2 := by
  match cs with
  | [] => exact absurd h (List.not_mem_nil _)
  | c :: r =>
    by_cases hc : (c = 'e' || c = 'E') = true
    · have hcne : c ≠ escChar := by
        intro he
        subst he
        exact absurd hc (by decide)
      have hr : escChar ∈ r := mem_of_cons_ne h hcne
      simp only [scanExp, hc, if_true]
      match r, hr with
      | s :: r2, hr =>
        by_cases hp : s = '+'
        · subst hp
          exact expDigits_mem false h (mem_of_cons_ne hr (by decide))
        · by_cases hm2 : s = '-'
          · subst hm2
            simp only [hp, if_false, if_pos rfl]
            exact expDigits_mem true h (mem_of_cons_ne hr (by decide))
          · simp only [hp, hm2, if_false]
            exact expDigits_mem false h hr
    · simp only [scanExp, hc, if_false]
      exact h

theorem finishNumber_mem (neg : Bool) (intDs : List Char) {cs : List Char}
    (h : escChar ∈ cs) : escChar ∈ (finishNumber neg intDs cs).2 := by
  have h1 : escChar ∈ (scanFrac cs).2 := scanFrac_mem h
  have h2 : escChar ∈ (scanExp (scanFrac cs).2).2 := scanExp_mem h1
  simp only [finishNumber]
  split
  · exact h1
  · exact h2

theorem scanNumBody_mem {l r : List Char} {v : Json} (b : Bool)
    (h : scanNumBody b l = some (v, r)) (hm : escChar ∈ l) : escChar ∈ r := by
  match l, hm with
  | c :: rest, hm =>
    by_cases h0 : c = '0'
    · subst h0
      simp only [scanNumBody, eq_self_iff_true, if_true, Option.some.injEq] at h
      have hrest : escChar ∈ rest := mem_of_cons_ne hm (by decide)
      have hfin := finishNumber_mem b ['0'] hrest
      rw [h] at hfin
      exact hfin
    · by_cases hdig : isAsciiDigit c = true
      · have hcne : c ≠ escChar := by
          intro he
          subst he
          exact absurd hdig (by decide)
        simp only [scanNumBody, h0, if_false, hdig, if_true, Option.some.injEq] at h
        have hrest : escChar ∈ rest := mem_of_cons_ne hm hcne
        have htd := takeDigits_mem rest hrest
        have hfin := finishNumber_mem b (c :: (takeDigits rest).1) htd
        rw [h] at hfin
        exact hfin
      · simp [scanNumBody, h0, hdig] at h

theorem scanNumber_mem {cs r : List Char} {v : Json} (h : scanNumber cs = some (v, r))
    (hm : escChar ∈ cs) : escChar ∈ r := by
  match cs, hm with
  | c :: cs0, hm =>
    by_cases hneg : c = '-'
    · subst hneg
      simp only [scanNumber, if_pos rfl] at h
      exact scanNumBody_mem true h (mem_of_cons_ne hm (by decide))
    · simp only [scanNumber, if_neg hneg] at h
      exact scanNumBody_mem false h hm

theorem stripPre_append : ∀ (pre cs r : List Char), stripPre pre cs = some r →
    cs = pre ++ r := by
  intro pre
  induction pre with
  | nil =>
    intro cs r h
    simp only [stripPre, Option.some.injEq] at h
    simp [h]
  | cons p ps ih =>
    intro cs r h
    match cs with
    | [] => simp [stripPre] at h
    | c :: rest =>
      by_cases hc : c = p
      · subst hc
        simp only [stripPre, if_pos rfl] at h
        simp [ih rest r h]
      · simp [stripPre, hc] at h

theorem scanStringBody_mem : ∀ (fuel : Nat) (cs b r : List Char),
    scanStringBody fuel cs = some (b, r) → escChar ∈ cs → escChar ∈ r := by
  intro fuel
  induction fuel with
  | zero =>
    intro cs b r h hm
    simp [scanStringBody] at h
  | succ f ih =>
    intro cs b r h hm
    match cs, hm with
    | c :: rest, hm =>
      by_cases hq : c = '"'
      · subst hq
        simp only [scanStringBody, if_true] at h
        simp only [Option.some.injEq, Prod.mk.injEq] at h
        rw [← h.2]
        exact mem_of_cons_ne hm (by decide)
      · by_cases hbs : c = '\\'
        · subst hbs
          have hm2 : escChar ∈ rest := mem_of_cons_ne hm (by decide)
          match rest, hm2 with
          | [], hm2 => exact absurd hm2 (List.not_mem_nil _)
          | e :: rest2, hm2 =>
            simp only [scanStringBody, if_true] at h
            rw [if_neg (show ¬('\\' : Char) = '"' from by decide)] at h
            by_cases hu : e = 'u'
            · subst hu
              rw [if_pos rfl] at h
              have hm3 : escChar ∈ rest2 := mem_of_cons_ne hm2 (by decide)
              cases hh : hex4 rest2 with
              | none =>
                rw [hh] at h
                cases h
              | some p =>
                obtain ⟨n1, rest3⟩ := p
                rw [hh] at h
                simp only at h
                have hm4 : escChar ∈ rest3 := hex4_mem hh hm3
                by_cases hsur : (0xd800 ≤ n1 && n1 ≤ 0xdbff) = true
                · rw [if_pos hsur] at h
                  match rest3, hm4, h with
                  | [], hm4, h => exact absurd hm4 (List.not_mem_nil _)
                  | [c2], hm4, h =>
                    simp only at h
                    obtain ⟨p1, hsc⟩ := map_snd_eq_some h
                    exact ih _ p1 r hsc hm4
                  | c2 :: c3 :: rest4, hm4, h =>
                    by_cases hcc : (c2 = '\\' && c3 = 'u') = true
                    · rw [Bool.and_eq_true, decide_eq_true_eq, decide_eq_true_eq] at hcc
                      obtain ⟨hc2, hc3⟩ := hcc
                      subst hc2
                      subst hc3
                      simp only at h
                      rw [if_pos (by decide)] at h
                      have hm5 : escChar ∈ rest4 :=
                        mem_of_cons_ne (mem_of_cons_ne hm4 (by decide)) (by decide)
                      cases hh2 : hex4 rest4 with
                      | none =>
                        rw [hh2] at h
                        cases h
                      | some p2 =>
                        obtain ⟨n2, rest5⟩ := p2
                        rw [hh2] at h
                        simp only at h
                        by_cases hlow : (0xdc00 ≤ n2 && n2 ≤ 0xdfff) = true
                        · rw [if_pos hlow] at h
                          obtain ⟨p1, hsc⟩ := map_snd_eq_some h
                          exact ih _ p1 r hsc (hex4_mem hh2 hm5)
                        · rw [if_neg hlow] at h
                          obtain ⟨p1, hsc⟩ := map_snd_eq_some h
                          exact ih _ p1 r hsc hm4
                    · simp only at h
                      rw [if_neg hcc] at h
                      obtain ⟨p1, hsc⟩ := map_snd_eq_some h
                      exact ih _ p1 r hsc hm4
                · rw [if_neg hsur] at h
                  obtain ⟨p1, hsc⟩ := map_snd_eq_some h
                  exact ih _ p1 r hsc hm4
            · rw [if_neg hu] at h
              cases hbe : backslashEscape e with
              | none =>
                rw [hbe] at h
                cases h
              | some ch =>
                have he : e ≠ escChar := by
                  intro hx
                  subst hx
                  rw [show backslashEscape escChar = none from by decide] at hbe
                  cases hbe
                rw [hbe] at h
                simp only at h
                obtain ⟨p1, hsc⟩ := map_snd_eq_some h
                exact ih _ p1 r hsc (mem_of_cons_ne hm2 he)
        · by_cases hctl : c.toNat < 0x20
          · simp only [scanStringBody] at h
            rw [if_neg hq, if_neg hbs, if_pos hctl] at h
            cases h
          · have hce : c ≠ escChar := by
              intro hx
              subst hx
              exact hctl (by decide)
            simp only [scanStringBody] at h
            rw [if_neg hq, if_neg hbs, if_neg hctl] at h
            obtain ⟨p1, hsc⟩ := map_snd_eq_some h
            exact ih _ p1 r hsc (mem_of_cons_ne hm hce)

theorem ne_esc_of_eq {c d : Char} (h : c = d) (hd : d ≠ escChar) : c ≠ escChar :=
  h ▸ hd

theorem map_pair_eq_some {α β : Type} {o : Option α} {j v : β} {r : α}
    (h : o.map (fun x => (j, x)) = some (v, r)) : o = some r := by
  rcases Option.map_eq_some'.mp h with ⟨r1, hst, heq⟩
  have hr : r1 = r := congrArg Prod.snd heq
  exact hr ▸ hst

theorem stripPre_esc {pre rest r : List Char} {j v : Json}
    (h : (stripPre pre rest).map (fun x => ((j : Json), x)) = some (v, r))
    (hpre : escChar ∉ pre) (hm : escChar ∈ rest) : escChar ∈ r := by
  have hst := map_pair_eq_some h
  have happ := stripPre_append pre rest r hst
  rcases List.mem_append.mp (happ ▸ hm) with h1 | h1
  · exact absurd h1 hpre
  · exact h1

theorem parse_mem_esc : ∀ fuel : Nat,
    (∀ cs v r, parseValue fuel cs = some (v, r) → escChar ∈ cs → escChar ∈ r) ∧
    (∀ acc cs fs r, parseMembers fuel acc cs = some (fs, r) → escChar ∈ cs → escChar ∈ r) ∧
    (∀ cs vs r, parseElems fuel cs = some (vs, r) → escChar ∈ cs → escChar ∈ r) := by
  intro fuel
  induction fuel with
  | zero =>
    refine ⟨?_, ?_, ?_⟩
    · intro cs v r h
      simp [parseValue] at h
    · intro acc cs fs r h
      simp [parseMembers] at h
    · intro cs vs r h
      simp [parseElems] at h
  | succ f ih =>
    obtain ⟨ihv, ihm, ihe⟩ := ih
    refine ⟨?_, ?_, ?_⟩
    · intro cs v r h hm
      match cs, hm with
      | c :: rest, hm =>
        simp only [parseValue] at h
        by_cases h1 : c = '"'
        · subst h1
          simp only [if_true] at h
          have hmr : escChar ∈ rest := mem_of_cons_ne hm (by decide)
          obtain ⟨p1, hsc, heq⟩ := Option.map_eq_some'.mp h
          have hr : p1.2 = r := congrArg Prod.snd heq
          exact hr ▸ scanStringBody_mem (f + 1) rest p1.1 p1.2 hsc hmr
        · rw [if_neg h1] at h
          by_cases h2 : c = '\x7b'
          · rw [if_pos h2] at h
            have hmr : escChar ∈ skipJsonWs rest :=
              skipJsonWs_mem (mem_of_cons_ne hm (ne_esc_of_eq h2 (by decide)))
            cases hsw : skipJsonWs rest with
            | nil =>
              rw [hsw] at h
              simp at h
            | cons c2 r2 =>
              rw [hsw] at h
              rw [hsw] at hmr
              simp only at h
              by_cases hc2 : c2 = '\x7d'
              · rw [if_pos hc2] at h
                simp only [Option.some.injEq, Prod.mk.injEq] at h
                rw [← h.2]
                exact mem_of_cons_ne hmr (ne_esc_of_eq hc2 (by decide))
              · rw [if_neg hc2] at h
                obtain ⟨p1, hsc⟩ := map_snd_eq_some h
                exact ihm [] (c2 :: r2) p1 r hsc hmr
          · rw [if_neg h2] at h
            by_cases h3 : c = '['
            · rw [if_pos h3] at h
              have hmr : escChar ∈ skipJsonWs rest :=
                skipJsonWs_mem (mem_of_cons_ne hm (ne_esc_of_eq h3 (by decide)))
              cases hsw : skipJsonWs rest with
              | nil =>
                rw [hsw] at h
                simp at h
              | cons c2 r2 =>
                rw [hsw] at h
                rw [hsw] at hmr
                simp only at h
                by_cases hc2 : c2 = ']'
                · rw [if_pos hc2] at h
                  simp only [Option.some.injEq, Prod.mk.injEq] at h
                  rw [← h.2]
                  exact mem_of_cons_ne hmr (ne_esc_of_eq hc2 (by decide))
                · rw [if_neg hc2] at h
                  obtain ⟨p1, hsc⟩ := map_snd_eq_some h
                  exact ihe (c2 :: r2) p1 r hsc hmr
            · rw [if_neg h3] at h
              by_cases h4 : c = 'n'
              · rw [if_pos h4] at h
                exact stripPre_esc h (by decide)
                  (mem_of_cons_ne hm (ne_esc_of_eq h4 (by decide)))
              · rw [if_neg h4] at h
                by_cases h5 : c = 't'
                · rw [if_pos h5] at h
                  exact stripPre_esc h (by decide)
                    (mem_of_cons_ne hm (ne_esc_of_eq h5 (by decide)))
                · rw [if_neg h5] at h
                  by_cases h6 : c = 'f'
                  · rw [if_pos h6] at h
                    exact stripPre_esc h (by decide)
                      (mem_of_cons_ne hm (ne_esc_of_eq h6 (by decide)))
                  · rw [if_neg h6] at h
                    cases hsn : scanNumber (c :: rest) with
                    | some p =>
                      obtain ⟨pv, pr⟩ := p
                      rw [hsn] at h
                      simp only [Option.some.injEq] at h
                      have hsm := scanNumber_mem hsn hm
                      have hr : pr = r := congrArg Prod.snd h
                      exact hr ▸ hsm
                    | none =>
                      rw [hsn] at h
                      simp only at h
                      by_cases h7 : c = 'N'
                      · rw [if_pos h7] at h
                        exact stripPre_esc h (by decide)
                          (mem_of_cons_ne hm (ne_esc_of_eq h7 (by decide)))
                      · rw [if_neg h7] at h
                        by_cases h8 : c = 'I'
                        · rw [if_pos h8] at h
                          exact stripPre_esc h (by decide)
                            (mem_of_cons_ne hm (ne_esc_of_eq h8 (by decide)))
                        · rw [if_neg h8] at h
                          by_cases h9 : c = '-'
                          · rw [if_pos h9] at h
                            exact stripPre_esc h (by decide)
                              (mem_of_cons_ne hm (ne_esc_of_eq h9 (by decide)))
                          · rw [if_neg h9] at h
                            cases h
    · intro acc cs fs r h hm
      match cs, hm with
      | c :: rest, hm =>
        simp only [parseMembers] at h
        by_cases h1 : c = '"'
        · subst h1
          simp only [if_true] at h
          have hmr : escChar ∈ rest := mem_of_cons_ne hm (by decide)
          cases hscan : scanStringBody (f + 1) rest with
          | none =>
            rw [hscan] at h
            simp at h
          | some p =>
            obtain ⟨keyChars, r1⟩ := p
            rw [hscan] at h
            simp only at h
            have hm1 : escChar ∈ skipJsonWs r1 :=
              skipJsonWs_mem (scanStringBody_mem (f + 1) rest keyChars r1 hscan hmr)
            cases hsw : skipJsonWs r1 with
            | nil =>
              rw [hsw] at h
              simp at h
            | cons c2 r2 =>
              rw [hsw] at h
              rw [hsw] at hm1
              simp only at h
              by_cases hc2 : c2 = ':'
              · rw [if_pos hc2] at h
                have hm2 : escChar ∈ skipJsonWs r2 :=
                  skipJsonWs_mem (mem_of_cons_ne hm1 (ne_esc_of_eq hc2 (by decide)))
                cases hval : parseValue f (skipJsonWs r2) with
                | none =>
                  rw [hval] at h
                  simp at h
                | some q =>
                  obtain ⟨v, r3⟩ := q
                  rw [hval] at h
                  simp only at h
                  have hm3 : escChar ∈ skipJsonWs r3 :=
                    skipJsonWs_mem (ihv (skipJsonWs r2) v r3 hval hm2)
                  cases hsw3 : skipJsonWs r3 with
                  | nil =>
                    rw [hsw3] at h
                    simp at h
                  | cons c3 r4 =>
                    rw [hsw3] at h
                    rw [hsw3] at hm3
                    simp only at h
                    by_cases hc3 : c3 = '\x7d'
                    · rw [if_pos hc3] at h
                      simp only [Option.some.injEq, Prod.mk.injEq] at h
                      rw [← h.2]
                      exact mem_of_cons_ne hm3 (ne_esc_of_eq hc3 (by decide))
                    · rw [if_neg hc3] at h
                      by_cases hc4 : c3 = ','
                      · rw [if_pos hc4] at h
                        exact ihm _ (skipJsonWs r4) fs r h
                          (skipJsonWs_mem (mem_of_cons_ne hm3 (ne_esc_of_eq hc4 (by decide))))
                      · rw [if_neg hc4] at h
                        cases h
              · rw [if_neg hc2] at h
                cases h
        · rw [if_neg h1] at h
          cases h
    · intro cs vs r h hm
      simp only [parseElems] at h
      cases hval : parseValue f cs with
      | none =>
        rw [hval] at h
        simp at h
      | some q =>
        obtain ⟨v, r1⟩ := q
        rw [hval] at h
        simp only at h
        have hm1 : escChar ∈ skipJsonWs r1 := skipJsonWs_mem (ihv cs v r1 hval hm)
        cases hsw : skipJsonWs r1 with
        | nil =>
          rw [hsw] at h
          simp at h
        | cons c2 r2 =>
          rw [hsw] at h
          rw [hsw] at hm1
          simp only at h
          by_cases hc2 : c2 = ']'
          · rw [if_pos hc2] at h
            simp only [Option.some.injEq, Prod.mk.injEq] at h
            rw [← h.2]
            exact mem_of_cons_ne hm1 (ne_esc_of_eq hc2 (by decide))
          · rw [if_neg hc2] at h
            by_cases hc3 : c2 = ','
            · rw [if_pos hc3] at h
              obtain ⟨p1, hsc⟩ := map_snd_eq_some h
              exact ihe (skipJsonWs r2) p1 r hsc
                (skipJsonWs_mem (mem_of_cons_ne hm1 (ne_esc_of_eq hc3 (by decide))))
            · rw [if_neg hc3] at h
              cases h

theorem jsonLoads_esc {s : String} {v : Json} (h : jsonLoads s = some v) :
    escChar ∉ s.data := by
  intro hm
  unfold jsonLoads at h
  cases hp : parseValue (s.data.length + 2) (skipJsonWs s.data) with
  | none =>
    rw [hp] at h
    cases h
  | some q =>
    obtain ⟨w, rest⟩ := q
    rw [hp] at h
    simp only at h
    have h1 := (parse_mem_esc _).1 _ w rest hp (skipJsonWs_mem hm)
    by_cases hr : skipJsonWs rest = []
    · have h2 := skipJsonWs_mem h1
      rw [hr] at h2
      exact absurd h2 (List.not_mem_nil _)
    · rw [if_neg hr] at h
      cases h

theorem isPrefixOf_mem : ∀ {p l : List Char}, p.isPrefixOf l = true →
    ∀ {c : Char}, c ∈ p → c ∈ l := by
  intro p
  induction p with
  | nil =>
    intro l h c hc
    exact absurd hc (List.not_mem_nil _)
  | cons x xs ih =>
    intro l h c hc
    match l with
    | [] => simp [List.isPrefixOf] at h
    | y :: ys =>
      simp only [List.isPrefixOf, Bool.and_eq_true] at h
      obtain ⟨hxy, hrest⟩ := h
      have hxy2 : x = y := by simpa using hxy
      rcases List.mem_cons.mp hc with h1 | h1
      · rw [h1, hxy2]
        exact List.mem_cons_self _ _
      · exact List.mem_cons_of_mem _ (ih hrest h1)

theorem containsSub_mem : ∀ {hay needle : List Char}, containsSub hay needle = true →
    ∀ {c : Char}, c ∈ needle → c ∈ hay := by
  intro hay
  induction hay with
  | nil =>
    intro needle h c hc
    match needle, hc with
    | x :: xs, hc => simp [containsSub, List.isEmpty] at h
  | cons a rest ih =>
    intro needle h c hc
    simp only [containsSub, Bool.or_eq_true] at h
    rcases h with h | h
    · exact isPrefixOf_mem h hc
    · exact List.mem_cons_of_mem _ (ih h hc)

theorem ts8Split_mem : ∀ {l tail : List Char}, ts8Split l = some tail →
    escChar ∈ l → escChar ∈ tail := by
  intro l tail h hm
  match l with
  | [] | [_] | [_, _] | [_, _, _] | [_, _, _, _] | [_, _, _, _, _]
  | [_, _, _, _, _, _] | [_, _, _, _, _, _, _] => simp [ts8Split] at h
  | d1 :: d2 :: c1 :: d3 :: d4 :: c2 :: d5 :: d6 :: rest =>
    simp only [ts8Split] at h
    by_cases hg : (isAsciiDigit d1 && isAsciiDigit d2 && c1 = ':' && isAsciiDigit d3 &&
       isAsciiDigit d4 && c2 = ':' && isAsciiDigit d5 && isAsciiDigit d6) = true
    · rw [if_pos hg] at h
      simp only [Option.some.injEq] at h
      subst h
      simp only [Bool.and_eq_true, decide_eq_true_eq] at hg
      obtain ⟨⟨⟨⟨⟨⟨⟨hd1, hd2⟩, hc1⟩, hd3⟩, hd4⟩, hc2⟩, hd5⟩, hd6⟩ := hg
      have hne : ∀ x : Char, isAsciiDigit x = true → x ≠ escChar := by
        intro x hx he
        subst he
        exact absurd hx (by decide)
      exact mem_of_cons_ne (mem_of_cons_ne (mem_of_cons_ne (mem_of_cons_ne
        (mem_of_cons_ne (mem_of_cons_ne (mem_of_cons_ne (mem_of_cons_ne hm
        (hne d1 hd1)) (hne d2 hd2)) (ne_esc_of_eq hc1 (by decide))) (hne d3 hd3))
        (hne d4 hd4)) (ne_esc_of_eq hc2 (by decide))) (hne d5 hd5)) (hne d6 hd6)
    · rw [if_neg hg] at h
      cases h

theorem wsRun_drop_mem : ∀ (cs : List Char) (k : Nat), k ≤ wsRunLen cs →
    escChar ∈ cs → escChar ∈ cs.drop k := by
  intro cs
  induction cs with
  | nil =>
    intro k hk hm
    exact absurd hm (List.not_mem_nil _)
  | cons c rest ih =>
    intro k hk hm
    match k with
    | 0 => exact hm
    | k' + 1 =>
      by_cases hw : pyIsSpace c = true
      · simp only [wsRunLen, hw, if_true] at hk
        have hc : c ≠ escChar := by
          intro he
          subst he
          exact absurd hw (by decide)
        simp only [List.drop]
        exact ih k' (Nat.le_of_succ_le_succ hk) (mem_of_cons_ne hm hc)
      · have hw2 : pyIsSpace c = false := by simpa using hw
        simp only [wsRunLen, hw2, Bool.false_eq_true, if_false] at hk
        omega

theorem dotPlusEnd_mem {r p : List Char} (h : dotPlusEnd r = some p)
    (hm : escChar ∈ r) : escChar ∈ p := by
  unfold dotPlusEnd at h
  by_cases h1 : r.isEmpty = true
  · rw [if_pos h1] at h
    cases h
  · rw [if_neg h1] at h
    by_cases h2 : r.dropLast.contains '\n' = true
    · rw [if_pos h2] at h
      cases h
    · rw [if_neg h2] at h
      by_cases h3 : r.getLast? = some '\n'
      · rw [if_pos h3] at h
        by_cases h4 : 2 ≤ r.length
        · rw [if_pos h4] at h
          simp only [Option.some.injEq] at h
          subst h
          have hne : r ≠ [] := by
            intro h0
            rw [h0] at h3
            simp at h3
          have hlast : r.getLast hne = '\n' := by
            have := List.getLast?_eq_getLast r hne
            rw [h3] at this
            exact ((Option.some.injEq _ _).mp this).symm
          have hsplit : r.dropLast ++ [('\n' : Char)] = r := by
            rw [← hlast]
            exact List.dropLast_append_getLast hne
          rw [← hsplit] at hm
          rcases List.mem_append.mp hm with h5 | h5
          · exact h5
          · simp at h5
            exact absurd h5 (by decide)
        · rw [if_neg h4] at h
          cases h
      · rw [if_neg h3] at h
        simp only [Option.some.injEq] at h
        subst h
        exact hm

theorem tsTryGaps_mem : ∀ (k : Nat) (tail p : List Char), k ≤ wsRunLen tail →
    tsTryGaps k tail = some p → escChar ∈ tail → escChar ∈ p := by
  intro k
  induction k with
  | zero =>
    intro tail p hk h hm
    simp [tsTryGaps] at h
  | succ k' ih =>
    intro tail p hk h hm
    simp only [tsTryGaps] at h
    cases hd : dotPlusEnd (tail.drop (k' + 1)) with
    | some q =>
      rw [hd] at h
      simp only [Option.some.injEq] at h
      subst h
      exact dotPlusEnd_mem hd (wsRun_drop_mem tail (k' + 1) hk hm)
    | none =>
      rw [hd] at h
      simp only at h
      exact ih tail p (Nat.le_of_succ_le hk) h hm

theorem tsMatch_mem {s payload : String} (h : tsMatch s = some payload)
    (hm : escChar ∈ s.data) : escChar ∈ payload.data := by
  unfold tsMatch at h
  cases hts : ts8Split s.data with
  | none =>
    rw [hts] at h
    cases h
  | some tail =>
    rw [hts] at h
    simp only at h
    rcases Option.map_eq_some'.mp h with ⟨p, htg, heq⟩
    have hm2 : escChar ∈ tail := ts8Split_mem hts hm
    have hp : escChar ∈ p := tsTryGaps_mem (wsRunLen tail) tail p (le_refl _) htg hm2
    rw [← heq]
    exact hp

theorem cloudKeep_ansi {s : String} (h : containsStr s ansiMark = true) :
    cloudKeep s = none := by
  have hm : escChar ∈ s.data := containsSub_mem h (by decide)
  have hload : jsonLoads s = none := by
    cases hj : jsonLoads s with
    | none => rfl
    | some v => exact absurd hm (jsonLoads_esc hj)
  simp only [cloudKeep, hload, ite_self]
  by_cases hfrag : (logFragments.any (fun frag => containsStr s frag)) = true
  · rw [if_pos hfrag]
  · rw [if_neg hfrag]
    cases htm : tsMatch s with
    | none => simp
    | some payload =>
      have hload2 : jsonLoads payload = none := by
        cases hj : jsonLoads payload with
        | none => rfl
        | some v => exact absurd (tsMatch_mem htm hm) (jsonLoads_esc hj)
      simp [hload2]

theorem tsPart_shape {s : String} {m : Json}
    (h : (match tsMatch s with
          | some payload =>
            match jsonLoads payload with
            | some (Json.obj f) =>
              if hasKey f "name" && hasKey f "resource_type" then some (Json.obj f) else none
            | _ => none
          | none => none) = some m) :
    ∃ f, m = Json.obj f ∧ hasKey f "name" = true ∧ hasKey f "resource_type" = true := by
  cases htm : tsMatch s with
  | none =>
    rw [htm] at h
    cases h
  | some payload =>
    rw [htm] at h
    simp only at h
    cases hj : jsonLoads payload with
    | none =>
      rw [hj] at h
      simp at h
    | some v =>
      rw [hj] at h
      match v, h with
      | Json.obj f, h =>
        simp only at h
        by_cases hk : (hasKey f "name" && hasKey f "resource_type") = true
        · rw [if_pos hk] at h
          simp only [Option.some.injEq] at h
          rw [Bool.and_eq_true] at hk
          exact ⟨f, h.symm, hk.1, hk.2⟩
        · rw [if_neg hk] at h
          cases h
      | Json.null, h | Json.bool _, h | Json.num _, h | Json.numF _ _, h
      | Json.nan, h | Json.inf _, h | Json.str _, h | Json.arr _, h => simp at h

theorem cloudKeep_shape {s : String} {m : Json} (h : cloudKeep s = some m) :
    ∃ f, m = Json.obj f ∧ hasKey f "name" = true ∧ hasKey f "resource_type" = true := by
  simp only [cloudKeep] at h
  by_cases hfrag : (logFragments.any (fun frag => containsStr s frag)) = true
  · rw [if_pos hfrag] at h
    cases h
  · rw [if_neg hfrag] at h
    by_cases hpre : (strStartsWith s "\x7b" && containsStr s "\"name\":" &&
        containsStr s "\"resource_type\":") = true
    · rw [if_pos hpre] at h
      cases hj : jsonLoads s with
      | none =>
        rw [hj] at h
        simp only at h
        exact tsPart_shape h
      | some v =>
        rw [hj] at h
        match v, h with
        | Json.obj f, h =>
          simp only at h
          by_cases hk : (hasKey f "name" && hasKey f "resource_type") = true
          · rw [if_pos hk] at h
            simp only at h
            simp only [Option.some.injEq] at h
            rw [Bool.and_eq_true] at hk
            exact ⟨f, h.symm, hk.1, hk.2⟩
          · rw [if_neg hk] at h
            simp only at h
            exact tsPart_shape h
        | Json.null, h | Json.bool _, h | Json.num _, h | Json.numF _ _, h
        | Json.nan, h | Json.inf _, h | Json.str _, h | Json.arr _, h =>
          simp only at h
          exact tsPart_shape h
    · rw [if_neg hpre] at h
      simp only at h
      exact tsPart_shape h

theorem nameIsString_exists {it : Json} (h : nameIsString it = true) :
    ∃ s2, objGet it "name" = some (Json.str s2) := by
  unfold nameIsString at h
  rcases hx : objGet it "name" with _ | v
  · rw [hx] at h
    cases h
  · rw [hx] at h
    match v, h with
    | Json.str s2, _ => exact ⟨s2, rfl⟩
    | Json.null, h | Json.bool _, h | Json.num _, h | Json.numF _ _, h
    | Json.nan, h | Json.inf _, h | Json.arr _, h | Json.obj _, h => simp at h

theorem extractCloudLoop_eq : ∀ (items : List Json),
    (∀ it ∈ items, nameIsString it = true) →
    extractCloudLoop items = some (items.filterMap cloudKeepItem) := by
  intro items
  induction items with
  | nil =>
    intro h
    rfl
  | cons it rest ih =>
    intro h
    obtain ⟨s2, hs⟩ := nameIsString_exists (h it (List.mem_cons_self it rest))
    have ihr := ih (fun x hx => h x (List.mem_cons_of_mem _ hx))
    simp only [extractCloudLoop, hs, ihr, List.filterMap_cons, cloudKeepItem]
    cases hck : cloudKeep s2 <;> simp

theorem all_objWithName (items : List Json)
    (h : ∀ it ∈ items, nameIsString it = true) :
    items.all isObjWithName = true := by
  rw [List.all_eq_true]
  intro it hit
  obtain ⟨s2, hs⟩ := nameIsString_exists (h it hit)
  cases it <;> simp_all [objGet, isObjWithName, hasKey]

/-- C3 counterexample: a name string that is a bare JSON object with
both keys, but with whitespace before the colon of its name key, is
dropped by the extraction — the literal substring recognizer fails, so
the output is empty instead of holding the decoded object. -/
theorem cloud_bare_json_recognizer_counterexample :
    jsonLoads "\x7b\"name\" :\"m1\",\"resource_type\":\"model\"\x7d" =
      some (Json.obj [("name", Json.str "m1"), ("resource_type", Json.str "model")]) ∧
    parse_dbt_list_output (Json.arr [Json.obj [("name",
        Json.str "\x7b\"name\" :\"m1\",\"resource_type\":\"model\"\x7d")]]) = some [] ∧
    (some ([] : List Json) ≠
      some [Json.obj [("name", Json.str "m1"), ("resource_type", Json.str "model")]]) :=
  ⟨by decide, by decide, by decide⟩

/-- C3 (amended): on a cloud-log-array input whose element names are
strings, parse_dbt_list_output returns, in encounter order, exactly the
kept records of the per-element decision: housekeeping-fragment names
are discarded, a name starting with a left brace and literally holding
the quoted name-colon and resource-type-colon substrings is parsed
whole, a timestamp-prefixed payload is parsed otherwise, and a decoded
object is kept only with both keys present. Every element whose name
holds a terminal color-escape sequence is discarded (its name can never
parse as JSON), every kept record is an object with both keys, and the
example of the claim extracts exactly the embedded model record. -/
theorem cloud_extraction_characterization (items : List Json)
    (h : ∀ it ∈ items, nameIsString it = true) :
    parse_dbt_list_output (Json.arr items) = some (items.filterMap cloudKeepItem) ∧
    (∀ s2 : String, containsStr s2 ansiMark = true → cloudKeep s2 = none) ∧
    (∀ m ∈ items.filterMap cloudKeepItem, ∃ f, m = Json.obj f ∧
      hasKey f "name" = true ∧ hasKey f "resource_type" = true) ∧
    parse_dbt_list_output (Json.arr [Json.obj [("name", Json.str "Sending project files")],
        Json.obj [("name", Json.str "00:00:01 \x7b\"name\":\"m1\",\"resource_type\":\"model\"\x7d")]]) =
      some [Json.obj [("name", Json.str "m1"), ("resource_type", Json.str "model")]] := by
  refine ⟨?_, ?_, ?_, by decide⟩
  · simp only [parse_dbt_list_output]
    rw [if_pos (all_objWithName items h)]
    exact extractCloudLoop_eq items h
  · intro s2 hansi
    exact cloudKeep_ansi hansi
  · intro m hmem
    rcases List.mem_filterMap.mp hmem with ⟨it, hit, hkeep⟩
    simp only [cloudKeepItem] at hkeep
    rcases hx : objGet it "name" with _ | v
    · rw [hx] at hkeep
      cases hkeep
    · rw [hx] at hkeep
      match v, hkeep with
      | Json.str s2, hkeep => exact cloudKeep_shape hkeep
      | Json.null, hkeep | Json.bool _, hkeep | Json.num _, hkeep | Json.numF _ _, hkeep
      | Json.nan, hkeep | Json.inf _, hkeep | Json.arr _, hkeep | Json.obj _, hkeep =>
        simp at hkeep

/-- Witness for the amended C3 theorem at the example input of the
claim. -/
theorem cloud_extraction_characterization_witness :
    (∀ it ∈ [Json.obj [("name", Json.str "Sending project files")],
        Json.obj [("name", Json.str "00:00:01 \x7b\"name\":\"m1\",\"resource_type\":\"model\"\x7d")]],
      nameIsString it = true) ∧
    (parse_dbt_list_output (Json.arr [Json.obj [("name", Json.str "Sending project files")],
        Json.obj [("name", Json.str "00:00:01 \x7b\"name\":\"m1\",\"resource_type\":\"model\"\x7d")]]) =
      some (([Json.obj [("name", Json.str "Sending project files")],
        Json.obj [("name", Json.str "00:00:01 \x7b\"name\":\"m1\",\"resource_type\":\"model\"\x7d")]]).filterMap
          cloudKeepItem) ∧
    (∀ s2 : String, containsStr s2 ansiMark = true → cloudKeep s2 = none) ∧
    (∀ m ∈ ([Json.obj [("name", Json.str "Sending project files")],
        Json.obj [("name", Json.str "00:00:01 \x7b\"name\":\"m1\",\"resource_type\":\"model\"\x7d")]]).filterMap
          cloudKeepItem, ∃ f, m = Json.obj f ∧
      hasKey f "name" = true ∧ hasKey f "resource_type" = true) ∧
    parse_dbt_list_output (Json.arr [Json.obj [("name", Json.str "Sending project files")],
        Json.obj [("name", Json.str "00:00:01 \x7b\"name\":\"m1\",\"resource_type\":\"model\"\x7d")]]) =
      some [Json.obj [("name", Json.str "m1"), ("resource_type", Json.str "model")]]) :=
  ⟨by decide, cloud_extraction_characterization _ (by decide)⟩
